import Mathlib

/-!
# mscraper: translation of Prometheus metric families and batch dispatch

A shallow embedding of `metric.go`, of `ReadConfig` in `config.go` and of
`eachChunk` and `workerLoop` in `cmd/mscraper/main.go`.

Modelling conventions.

* A Go `string` is a Lean `String` (a sequence of Unicode code points); the
  library functions `strings.ToLower`, `Regexp.ReplaceAllString` and
  `strings.Join` act on the code points.
* A Go `map[string]string` is an association list with pairwise distinct keys
  (`AList`); the order of its entries is the order in which one `range` loop
  enumerates it, `m[k] = v` is `AList.insert` and reading a key is
  `AList.lookup`.
* `float64` is an abstract type `F` with the two operations the program uses:
  the conversion from `uint64` and the formatting done by `fmt.Sprintf("%v", x)`.
* A protobuf message is represented by the values its getters return (the
  program reads messages through getters only, and a getter called on a nil
  message returns the default of the field).
* A Go function returning `(T, error)` returns `Except Error T`; a callback
  that mutates captured variables is a state-passing function.
* `time.Now().Unix()` is the parameter `now`.
* What lies outside the program is a parameter: the HTTP answer, the text
  parser and the clock of a poll cycle (`Env`), the remote client
  (`MetricClient`), and the library functions `ReadConfig` calls
  (`ConfigLib`).
* The `for` loop of `workerLoop` is run on the list of what its `select`
  statement receives, one event per iteration.
-/

namespace Mscraper

/-! ## Data model -/

/-- A Go map from strings to strings. -/
abbrev StrMap := AList (fun _ : String => String)

/-- The two operations on `float64` values used by the translation. -/
class Float64 (F : Type) where
  /-- The conversion `float64(n)` of an unsigned 64-bit integer. -/
  ofUint64 : Nat → F
  /-- The string `fmt.Sprintf("%v", x)`. -/
  sprintV : F → String

/-- Integers standing in for `float64` values in concrete examples. -/
instance : Float64 Int where
  ofUint64 n := (n : Int)
  sprintV x := toString x

/-- The type tag `client_model.MetricType`, a protobuf enumeration carried as an integer. -/
abbrev client_model.MetricType := Int

def client_model.MetricType_COUNTER : client_model.MetricType := 0

def client_model.MetricType_GAUGE : client_model.MetricType := 1

def client_model.MetricType_SUMMARY : client_model.MetricType := 2

def client_model.MetricType_UNTYPED : client_model.MetricType := 3

def client_model.MetricType_HISTOGRAM : client_model.MetricType := 4

/-- The errors of the package: the two built with `fmt.Errorf` in `metric.go`,
and the errors handed over by library calls. -/
inductive Error where
  | InvalidStatusCode (code : Int)
  | UnknownMetricType (metricType : client_model.MetricType)
  | External (msg : String)
  deriving DecidableEq, Repr

structure client_model.LabelPair where
  GetName : String
  GetValue : String
  deriving DecidableEq, Repr

structure client_model.Gauge (F : Type) where
  GetValue : F
  deriving DecidableEq, Repr

structure client_model.Counter (F : Type) where
  GetValue : F
  deriving DecidableEq, Repr

structure client_model.Untyped (F : Type) where
  GetValue : F
  deriving DecidableEq, Repr

structure client_model.Quantile (F : Type) where
  GetQuantile : F
  GetValue : F
  deriving DecidableEq, Repr

structure client_model.Summary (F : Type) where
  GetSampleCount : Nat
  GetSampleSum : F
  GetQuantile : List (client_model.Quantile F)
  deriving DecidableEq, Repr

structure client_model.Bucket (F : Type) where
  GetCumulativeCount : Nat
  GetUpperBound : F
  deriving DecidableEq, Repr

structure client_model.Histogram (F : Type) where
  GetSampleCount : Nat
  GetSampleSum : F
  GetBucket : List (client_model.Bucket F)
  deriving DecidableEq, Repr

structure client_model.Metric (F : Type) where
  GetLabel : List client_model.LabelPair
  GetGauge : client_model.Gauge F
  GetCounter : client_model.Counter F
  GetSummary : client_model.Summary F
  GetUntyped : client_model.Untyped F
  GetHistogram : client_model.Histogram F
  deriving DecidableEq, Repr

structure client_model.MetricFamily (F : Type) where
  GetName : String
  GetType : client_model.MetricType
  GetMetric : List (client_model.Metric F)
  deriving DecidableEq, Repr

structure pb_timestamp.Timestamp where
  Seconds : Int
  deriving DecidableEq, Repr

structure pb_monitoring.TimeInterval where
  EndTime : pb_timestamp.Timestamp
  deriving DecidableEq, Repr

inductive pb_monitoring.TypedValue (F : Type) where
  | BoolValue (b : Bool)
  | Int64Value (n : Int)
  | DoubleValue (r : F)
  | StringValue (s : String)
  deriving DecidableEq, Repr

inductive pb_metric.MetricDescriptor_MetricKind where
  | METRIC_KIND_UNSPECIFIED
  | GAUGE
  | DELTA
  | CUMULATIVE
  deriving DecidableEq, Repr

structure pb_metric.Metric where
  Type_ : String
  Labels : StrMap
  deriving DecidableEq

structure pb_monitoredres.MonitoredResource where
  Type_ : String
  Labels : StrMap
  deriving DecidableEq

structure pb_monitoring.Point (F : Type) where
  Interval : pb_monitoring.TimeInterval
  Value : pb_monitoring.TypedValue F
  deriving DecidableEq

structure pb_monitoring.TimeSeries (F : Type) where
  Resource : pb_monitoredres.MonitoredResource
  Metric : pb_metric.Metric
  MetricKind : pb_metric.MetricDescriptor_MetricKind
  Points : List (pb_monitoring.Point F)
  deriving DecidableEq

/-! ### config.go -/

structure Resource where
  Type_ : String
  Labels : StrMap
  deriving DecidableEq

structure Metric where
  Prefix : List String
  Labels : StrMap
  Filter : String
  deriving DecidableEq

/-- A compiled `*regexp.Regexp`, represented by its method `MatchString`. -/
structure Regexp where
  MatchString : String → Bool

structure Config where
  Target : String
  Resource : Resource
  Metric : Metric
  Prefix : List String
  Interval : Int
  Project : String
  Filter : Regexp

/-! ## metric.go -/

def timestampNow (now : Int) : pb_timestamp.Timestamp :=
  { Seconds := now }

def timeIntervalEnd (now : Int) : pb_monitoring.TimeInterval :=
  { EndTime := timestampNow now }

/-- The code-point mapping `unicode.ToLower`: the ASCII letters are shifted by
`'a' - 'A'`, every other ASCII character is left alone, and a character
beyond ASCII is looked up in the Unicode case tables, here the parameter
`caseTable`. -/
def unicodeToLower (caseTable : Char → Char) (r : Char) : Char :=
  if r.toNat ≤ 127 then
    if 'A'.toNat ≤ r.toNat ∧ r.toNat ≤ 'Z'.toNat then Char.ofNat (r.toNat + ('a'.toNat - 'A'.toNat))
    else r
  else caseTable r

/-- The library function `strings.ToLower`. -/
def stringsToLower (caseTable : Char → Char) (s : String) : String :=
  String.mk (s.data.map (unicodeToLower caseTable))

/-- Membership in the character class `[^a-z0-9]`. -/
def regClass (c : Char) : Bool :=
  !(('a'.toNat ≤ c.toNat && c.toNat ≤ 'z'.toNat) || ('0'.toNat ≤ c.toNat && c.toNat ≤ '9'.toNat))

/-- What `reg.ReplaceAllString(src, "_")` does on the code points of `src` for
`reg = [^a-z0-9]+`, as a left-to-right scan; `inMatch` tells whether the
character before the current one belongs to a match. A character of the class
starts a match when none is open, and the replacement `_` is written once for
that match; the greedy `+` extends an open match over every further character
of the class; a character outside the class ends the match and is copied. -/
def replaceAllRuns (inMatch : Bool) : List Char → List Char
  | [] => []
  | c :: cs =>
    if regClass c then
      if inMatch then replaceAllRuns true cs else '_' :: replaceAllRuns true cs
    else c :: replaceAllRuns false cs

/-- The call `reg.ReplaceAllString(src, "_")` of `newPbMetricType`. -/
def regReplaceAllString (src : String) : String :=
  String.mk (replaceAllRuns false src.data)

/-- The local variable `name` of `newPbMetricType`: the normalized family name. -/
def normalizeName (caseTable : Char → Char) (nameOrig : String) : String :=
  regReplaceAllString (stringsToLower caseTable nameOrig)

def newPbMetricType (caseTable : Char → Char) (pfx : List String) (nameOrig : String) : String :=
  let nameLower := stringsToLower caseTable nameOrig
  let name := regReplaceAllString nameLower
  let strs : List String := []
  let strs := strs ++ ["custom.googleapis.com"]
  let strs := pfx.foldl (fun strs str =>
    if str ≠ "" then strs ++ [regReplaceAllString str] else strs) strs
  let strs := strs ++ [name]
  String.intercalate "/" strs

def labelPairsToMap (pairs : List client_model.LabelPair) : StrMap :=
  pairs.foldl (fun ret pair => ret.insert pair.GetName pair.GetValue) ∅

def toDoubleValue {F : Type} (r : F) : pb_monitoring.TypedValue F :=
  .DoubleValue r

def mergeMaps (ms : List StrMap) : StrMap :=
  ms.foldl (fun ret m => m.entries.foldl (fun ret e => ret.insert e.1 e.2) ret) ∅

/-- The callback type of `each`; `σ` is the state the callback updates. -/
abbrev typedValueCallback (F σ : Type) :=
  pb_monitoring.TypedValue F → pb_metric.MetricDescriptor_MetricKind → StrMap → σ → Except Error σ

/-- The implementations of the interface `promMetricValues`. The field of
`promGauge` is an interface value with the single method `GetValue`, kept as
the number that method returns. -/
inductive promMetricValues (F : Type) where
  | promGauge (v : F)
  | promSummary (v : client_model.Summary F)
  | promHistgram (v : client_model.Histogram F)

def promMetricValues.each {F σ : Type} [Float64 F] (pv : promMetricValues F)
    (f : typedValueCallback F σ) (st : σ) : Except Error σ :=
  match pv with
  | .promGauge v => f (toDoubleValue v) .GAUGE ∅ st
  | .promSummary summary => do
    let st ← f (toDoubleValue summary.GetSampleSum) .GAUGE
      ((∅ : StrMap).insert "mode" "sum") st
    let st ← f (toDoubleValue (Float64.ofUint64 summary.GetSampleCount)) .GAUGE
      ((∅ : StrMap).insert "mode" "count") st
    summary.GetQuantile.foldlM (fun st quantile =>
      f (toDoubleValue quantile.GetValue) .GAUGE
        (((∅ : StrMap).insert "mode" "quantile").insert "quantile"
          (Float64.sprintV quantile.GetQuantile)) st) st
  | .promHistgram histgram => do
    let st ← f (toDoubleValue histgram.GetSampleSum) .GAUGE
      ((∅ : StrMap).insert "mode" "sum") st
    let st ← f (toDoubleValue (Float64.ofUint64 histgram.GetSampleCount)) .GAUGE
      ((∅ : StrMap).insert "mode" "count") st
    histgram.GetBucket.foldlM (fun st bucket =>
      f (toDoubleValue (Float64.ofUint64 bucket.GetCumulativeCount)) .GAUGE
        (((∅ : StrMap).insert "mode" "bucket").insert "le"
          (Float64.sprintV bucket.GetUpperBound)) st) st

def newPromMetricValues {F : Type} (metricType : client_model.MetricType)
    (metric : client_model.Metric F) : Except Error (promMetricValues F) :=
  if metricType = client_model.MetricType_SUMMARY then
    .ok (.promSummary metric.GetSummary)
  else if metricType = client_model.MetricType_HISTOGRAM then
    .ok (.promHistgram metric.GetHistogram)
  else if metricType = client_model.MetricType_UNTYPED then
    .ok (.promGauge metric.GetUntyped.GetValue)
  else if metricType = client_model.MetricType_COUNTER then
    .ok (.promGauge metric.GetCounter.GetValue)
  else if metricType = client_model.MetricType_GAUGE then
    .ok (.promGauge metric.GetGauge.GetValue)
  else
    .error (.UnknownMetricType metricType)

/-- The series the callback of `toTimeSeries` appends to `ret` when `each`
calls it with `value`, `kind` and `labelsAdd` for an instance whose labels are
`labelsOrig`. -/
def toTimeSeries.series {F : Type} (cfg : Config) (interval : pb_monitoring.TimeInterval)
    (pbMetricType : String) (resource : pb_monitoredres.MonitoredResource) (labelsOrig : StrMap)
    (value : pb_monitoring.TypedValue F) (kind : pb_metric.MetricDescriptor_MetricKind)
    (labelsAdd : StrMap) : pb_monitoring.TimeSeries F :=
  let labels := mergeMaps [labelsOrig, labelsAdd, cfg.Metric.Labels]
  let metric : pb_metric.Metric := { Type_ := pbMetricType, Labels := labels }
  { Resource := resource, Metric := metric, MetricKind := kind,
    Points := [{ Interval := interval, Value := value }] }

def toTimeSeries {F : Type} [Float64 F] (caseTable : Char → Char) (now : Int) (cfg : Config)
    (family : client_model.MetricFamily F) : Except Error (List (pb_monitoring.TimeSeries F)) :=
  let interval := timeIntervalEnd now
  let name := family.GetName
  let metricType := family.GetType
  let metrics := family.GetMetric
  let pbMetricType := newPbMetricType caseTable cfg.Metric.Prefix name
  let resource : pb_monitoredres.MonitoredResource :=
    { Type_ := cfg.Resource.Type_, Labels := cfg.Resource.Labels }
  metrics.foldlM (fun ret metric => do
    let labelsOrig := labelPairsToMap metric.GetLabel
    let metricValue ← newPromMetricValues metricType metric
    metricValue.each (fun value kind labelsAdd ret =>
      .ok (ret ++ [toTimeSeries.series cfg interval pbMetricType resource labelsOrig
        value kind labelsAdd])) ret) []

/-! ## cmd/mscraper/main.go -/

def chunkSize : Nat := 200

/-- The slice expression `ts[i:j]`. -/
def slice {α : Type} (ts : List α) (i j : Nat) : List α :=
  (ts.take j).drop i

/-- The `for` loop of `eachChunk`, started at index `i` with callback state `st`. -/
def eachChunk.loop {α σ : Type} (ts : List α) (f : List α → σ → Except Error σ)
    (i : Nat) (st : σ) : Except Error σ :=
  let lenTs := ts.length
  if i < lenTs then
    let endChunk := i + chunkSize
    let endChunk := if endChunk > lenTs then lenTs else endChunk
    match f (slice ts i endChunk) st with
    | .error err => .error err
    | .ok st => eachChunk.loop ts f (i + chunkSize) st
  else .ok st
termination_by ts.length - i
decreasing_by
  simp_wf
  simp only [chunkSize]
  omega

def eachChunk {α σ : Type} (ts : List α) (f : List α → σ → Except Error σ) (st : σ) :
    Except Error σ :=
  eachChunk.loop ts f 0 st

structure pb_monitoring.CreateTimeSeriesRequest (F : Type) where
  Name : String
  TimeSeries : List (pb_monitoring.TimeSeries F)
  deriving DecidableEq

/-- The library function `monitoring.MetricProjectPath`. -/
def MetricProjectPath (project : String) : String :=
  "projects/" ++ project

/-- The remote client. `CreateTimeSeries earlier req` is the outcome of sending
`req` after the requests `earlier`: `none` for success, `some err` for a failure. -/
structure MetricClient (F : Type) where
  CreateTimeSeries : List (pb_monitoring.CreateTimeSeriesRequest F) →
    pb_monitoring.CreateTimeSeriesRequest F → Option Error

/-- What a worker has done so far: the requests offered to the client and the
errors written to the log, both in order. -/
structure WorkerState (F : Type) where
  requests : List (pb_monitoring.CreateTimeSeriesRequest F)
  logged : List Error

/-- The callback `workerLoop` hands to `eachChunk`. -/
def workerLoop.send {F : Type} (client : MetricClient F) (cfg : Config)
    (c : List (pb_monitoring.TimeSeries F)) (w : WorkerState F) : Except Error (WorkerState F) :=
  let req : pb_monitoring.CreateTimeSeriesRequest F :=
    { Name := MetricProjectPath cfg.Project, TimeSeries := c }
  match client.CreateTimeSeries w.requests req with
  | some err => .ok { requests := w.requests ++ [req], logged := w.logged ++ [err] }
  | none => .ok { requests := w.requests ++ [req], logged := w.logged }

/-- The dispatch step of `workerLoop`: `eachChunk` applied to the send callback. -/
def workerLoop.dispatch {F : Type} (client : MetricClient F) (cfg : Config)
    (ts : List (pb_monitoring.TimeSeries F)) (w : WorkerState F) : Except Error (WorkerState F) :=
  eachChunk ts (workerLoop.send client cfg) w

/-! ## metric.go: fetching -/

/-- The part of an `*http.Response` the program reads. -/
structure Response where
  StatusCode : Int
  Body : String
  deriving DecidableEq, Repr

/-- The fetched families, a Go map from names to families; the order of the
entries is the order in which the `range` loop of `FetchTimeSeries` meets them. -/
abbrev FamilyMap (F : Type) := AList (fun _ : String => client_model.MetricFamily F)

/-- The world outside the program during one poll cycle: the answer of
`http.Get`, the result of `expfmt.TextParser.TextToMetricFamilies` on a body,
and the value of `time.Now().Unix()` while the family of a given name is
translated. -/
structure Env (F : Type) where
  Get : String → Except Error Response
  TextToMetricFamilies : String → Except Error (FamilyMap F)
  Now : String → Int

def fetchMetricFamilies {F : Type} (env : Env F) (url : String) : Except Error (FamilyMap F) :=
  match env.Get url with
  | .error err => .error err
  | .ok res =>
    if res.StatusCode < 200 ∨ res.StatusCode ≥ 300 then
      .error (.InvalidStatusCode res.StatusCode)
    else
      env.TextToMetricFamilies res.Body

/-- The argument `capacity` only sizes the slice that is allocated first. -/
def FetchTimeSeries {F : Type} [Float64 F] (caseTable : Char → Char) (env : Env F)
    (cfg : Config) (_capacity : Nat) : Except Error (List (pb_monitoring.TimeSeries F)) :=
  match fetchMetricFamilies env cfg.Target with
  | .error err => .error err
  | .ok families =>
    families.entries.foldlM (fun ret e =>
      if cfg.Filter.MatchString e.1 then
        match toTimeSeries caseTable (env.Now e.1) cfg e.2 with
        | .error err => .error err
        | .ok ts => .ok (ret ++ ts)
      else .ok ret) []

/-! ## config.go: ReadConfig -/

structure ConfigExpr where
  Target : String
  Resource : Resource
  Metric : Metric
  Interval : String
  deriving DecidableEq

/-- The library functions `ReadConfig` calls: `ioutil.ReadFile`,
`json.Unmarshal` into a list of `ConfigExpr`, `time.ParseDuration` (a duration
is a number of nanoseconds) and `regexp.Compile`. -/
structure ConfigLib where
  ReadFile : String → Except Error String
  Unmarshal : String → Except Error (List ConfigExpr)
  ParseDuration : String → Except Error Int
  Compile : String → Except Error Regexp

def ReadConfig (lib : ConfigLib) (path : String) : Except Error (List Config) := do
  let bytes ← lib.ReadFile path
  let cfgs ← lib.Unmarshal bytes
  cfgs.foldlM (fun ret cfg => do
    let duration ← lib.ParseDuration cfg.Interval
    let project := (cfg.Resource.Labels.lookup "project_id").getD ""
    let filterStr := cfg.Metric.Filter
    let filterStr := if filterStr = "" then "^.+$" else filterStr
    let filter ← lib.Compile filterStr
    let cfg : Config :=
      { Target := cfg.Target
        Resource := cfg.Resource
        Metric := cfg.Metric
        Prefix := []
        Interval := duration
        Project := project
        Filter := filter }
    .ok (ret ++ [cfg])) []

/-! ## cmd/mscraper/main.go: workerLoop -/

/-- The body of the case `<-tick.C`: one poll cycle. The callback of
`eachChunk` always returns nil, so `eachChunk` returns nil too. -/
def workerLoop.cycle {F : Type} [Float64 F] (caseTable : Char → Char) (client : MetricClient F)
    (cfg : Config) (env : Env F) (w : WorkerState F) : WorkerState F :=
  match FetchTimeSeries caseTable env cfg chunkSize with
  | .ok ts =>
    match eachChunk ts (workerLoop.send client cfg) w with
    | .ok w => w
    | .error _ => w
  | .error err => { requests := w.requests, logged := w.logged ++ [err] }

/-- What the `select` statement of `workerLoop` receives in one iteration of
the `for` loop: the closed channel `ctx.Done()`, or a tick, with the world
during the poll cycle the tick starts. -/
inductive Event (F : Type) where
  | Done
  | Tick (env : Env F)

/-- The library function `time.NewTicker`: it panics when the duration is not
positive, which `none` stands for; otherwise it returns a ticker, kept as
its period. -/
def NewTicker (d : Int) : Option Int :=
  if d ≤ 0 then none else some d

/-- The worker after some iterations: what it has sent and logged, how many
poll cycles it has started, and whether it has panicked. -/
structure LoopState (F : Type) where
  worker : WorkerState F
  cycles : Nat
  panicked : Bool

/-- One iteration of the `for` loop of `workerLoop`, the `select` statement. In
the case `<-ctx.Done()` the statement `break` ends the `select` statement, the
innermost statement it stands in, and the `for` loop goes on with its next
iteration. -/
def workerLoop.select {F : Type} [Float64 F] (caseTable : Char → Char)
    (client : MetricClient F) (cfg : Config) (st : LoopState F) (ev : Event F) : LoopState F :=
  match ev with
  | .Done => st
  | .Tick env =>
    { worker := workerLoop.cycle caseTable client cfg env st.worker
      cycles := st.cycles + 1
      panicked := st.panicked }

/-- The worker after the call of `time.NewTicker` and the iterations of the
`for` loop that receive `events`; when `time.NewTicker` panics the loop is
not entered. -/
def workerLoop {F : Type} [Float64 F] (caseTable : Char → Char) (client : MetricClient F)
    (cfg : Config) (events : List (Event F)) : LoopState F :=
  match NewTicker cfg.Interval with
  | none => { worker := { requests := [], logged := [] }, cycles := 0, panicked := true }
  | some _ =>
    events.foldl (workerLoop.select caseTable client cfg)
      { worker := { requests := [], logged := [] }, cycles := 0, panicked := false }

/-! ## Derived definitions -/

/-- The batches `eachChunk` hands to its callback, in call order, recorded by a
callback that never fails. -/
def batchesOf {α : Type} (ts : List α) : List (List α) :=
  match eachChunk ts (fun c acc => .ok (acc ++ [c])) [] with
  | .ok acc => acc
  | .error _ => []

/-- The arguments `each` hands to its callback, in call order, recorded by a
callback that never fails. -/
def emitted {F : Type} [Float64 F] (pv : promMetricValues F) :
    List (pb_monitoring.TypedValue F × pb_metric.MetricDescriptor_MetricKind × StrMap) :=
  match pv.each (fun value kind labelsAdd acc => .ok (acc ++ [(value, kind, labelsAdd)])) [] with
  | .ok acc => acc
  | .error _ => []

/-- The series `toTimeSeries` builds for one instance once its values are `pv`. -/
def seriesOfInstance {F : Type} [Float64 F] (caseTable : Char → Char) (now : Int) (cfg : Config)
    (family : client_model.MetricFamily F) (metric : client_model.Metric F)
    (pv : promMetricValues F) : List (pb_monitoring.TimeSeries F) :=
  (emitted pv).map (fun e =>
    toTimeSeries.series cfg (timeIntervalEnd now)
      (newPbMetricType caseTable cfg.Metric.Prefix family.GetName)
      { Type_ := cfg.Resource.Type_, Labels := cfg.Resource.Labels }
      (labelPairsToMap metric.GetLabel) e.1 e.2.1 e.2.2)

/-- The characters of `[a-z0-9]`, by the predicates of the Lean library. -/
def lowerAlnum (c : Char) : Bool :=
  c.isLower || c.isDigit

/-- Follows the words of the specification: the string is cut into its maximal
runs of characters that are all inside or all outside `[a-z0-9]`; a run inside
is kept, a run outside is replaced by a single `_`. -/
def replaceRunsSpec (l : List Char) : List Char :=
  (l.splitBy (fun a b => lowerAlnum a == lowerAlnum b)).flatMap
    (fun run => if run.all lowerAlnum then run else ['_'])

/-- A loop body that skips the elements `p` rejects, appends what `f` gives for
the others and passes on the error of `f`. -/
structure Collects {α β : Type} (p : α → Bool) (f : α → Except Error (List β))
    (body : List β → α → Except Error (List β)) : Prop where
  skip : ∀ ret a, p a = false → body ret a = .ok ret
  append : ∀ ret a xs, p a = true → f a = .ok xs → body ret a = .ok (ret ++ xs)
  fail : ∀ ret a err, p a = true → f a = .error err → body ret a = .error err

/-- The Config the loop of `ReadConfig` builds from one descriptor, or the
error that ends the loop there. -/
def ReadConfig.entry (lib : ConfigLib) (cfg : ConfigExpr) : Except Error Config := do
  let duration ← lib.ParseDuration cfg.Interval
  let project := (cfg.Resource.Labels.lookup "project_id").getD ""
  let filterStr := cfg.Metric.Filter
  let filterStr := if filterStr = "" then "^.+$" else filterStr
  let filter ← lib.Compile filterStr
  .ok { Target := cfg.Target
        Resource := cfg.Resource
        Metric := cfg.Metric
        Prefix := []
        Interval := duration
        Project := project
        Filter := filter }

/-- The library function `leadingInt` of package `time`: the decimal digits at
the front of the string as a number, added to `x`, and the rest of the
string; `none` when the number overflows. -/
def leadingInt (x : Nat) : List Char → Option (Nat × List Char)
  | [] => some (x, [])
  | c :: cs =>
    if c.isDigit then
      if x > 2 ^ 63 / 10 then none
      else if x * 10 + (c.toNat - '0'.toNat) > 2 ^ 63 then none
      else leadingInt (x * 10 + (c.toNat - '0'.toNat)) cs
    else some (x, c :: cs)

/-- The table `unitMap` of package `time`, for the units written in ASCII. -/
def unitMap (u : String) : Option Nat :=
  if u = "ns" then some 1
  else if u = "us" then some 1000
  else if u = "ms" then some 1000000
  else if u = "s" then some 1000000000
  else if u = "m" then some 60000000000
  else if u = "h" then some 3600000000000
  else none

/-- A fragment of the library function `time.ParseDuration`: an optional sign,
then either `0` alone or one group of decimal digits followed by a unit, as
in `90s` or `-5s`. On these strings the result is the one of the library, a
number of nanoseconds. A string with a fraction or with several groups, which
the library accepts, is outside the fragment and reported as an error here,
like the strings the library rejects. -/
def parseDurationFragment (s : String) : Except Error Int :=
  let invalid : Except Error Int := .error (.External "time: invalid duration")
  let signed : Bool × List Char :=
    match s.data with
    | '-' :: r => (true, r)
    | '+' :: r => (false, r)
    | r => (false, r)
  if signed.2 = ['0'] then .ok 0
  else
    match leadingInt 0 signed.2 with
    | none => invalid
    | some (v, rest) =>
      let u := rest.takeWhile (fun c => !(c == '.' || c.isDigit))
      if rest.length = signed.2.length then invalid
      else if u = [] then invalid
      else if rest.dropWhile (fun c => !(c == '.' || c.isDigit)) ≠ [] then invalid
      else
        match unitMap (String.mk u) with
        | none => invalid
        | some unit =>
          if v > 2 ^ 63 / unit then invalid
          else if signed.1 then .ok (-((v * unit : Nat) : Int))
          else if v * unit > 2 ^ 63 - 1 then invalid
          else .ok ((v * unit : Nat) : Int)

/-- The atoms of the fragment of the regexp syntax modelled here: `.`, which
without flags matches every character but the newline, and a literal
character. -/
inductive RegexAtom where
  | anyCharNotNL
  | lit (c : Char)
  deriving DecidableEq, Repr

/-- The items of the fragment: `^`, which without flags matches at the
beginning of the text only, `$`, which matches at its end only, an atom, and
an atom repeated by `+` or by `*`. A pattern is a list of items. -/
inductive RegexItem where
  | beginText
  | endText
  | one (a : RegexAtom)
  | plus (a : RegexAtom)
  | star (a : RegexAtom)
  deriving DecidableEq, Repr

def RegexAtom.accepts : RegexAtom → Char → Bool
  | .anyCharNotNL, c => c != '\n'
  | .lit x, c => c == x

/-- One or more characters accepted by the atom, followed by a text that the
rest of the pattern, `k`, matches. -/
def plusLoop (a : RegexAtom) (k : List Char → Bool) : List Char → Bool
  | [] => false
  | c :: cs => a.accepts c && (k cs || plusLoop a k cs)

/-- Whether the pattern matches some text that starts where `s` starts;
`atStart` tells whether that place is the beginning of the whole text. -/
def matchHere : List RegexItem → Bool → List Char → Bool
  | [], _, _ => true
  | .beginText :: items, atStart, s => atStart && matchHere items atStart s
  | .endText :: items, atStart, s => s.isEmpty && matchHere items atStart s
  | .one _ :: _, _, [] => false
  | .one a :: items, _, c :: cs => a.accepts c && matchHere items false cs
  | .plus a :: items, _, s => plusLoop a (matchHere items false) s
  | .star a :: items, atStart, s =>
    matchHere items atStart s || plusLoop a (matchHere items false) s

/-- Whether the pattern matches somewhere in the text: at its first character
or at a later one. -/
def searchFrom (items : List RegexItem) : Bool → List Char → Bool
  | atStart, [] => matchHere items atStart []
  | atStart, c :: cs => matchHere items atStart (c :: cs) || searchFrom items false cs

/-- The compiled pattern, with the method `MatchString` of `*regexp.Regexp`. -/
def regexpOf (items : List RegexItem) : Regexp :=
  { MatchString := fun s => searchFrom items true s.data }

/-- The characters with a meaning of their own in the regexp syntax. -/
def regexMeta (c : Char) : Bool :=
  c == '\\' || c == '[' || c == ']' || c == '(' || c == ')' || c == '{' || c == '}'
    || c == '|' || c == '?' || c == '+' || c == '*' || c == '^' || c == '$' || c == '.'

def atomOf (c : Char) : Option RegexAtom :=
  if c == '.' then some .anyCharNotNL
  else if regexMeta c then none
  else some (.lit c)

/-- The items a pattern of the fragment is made of; `none` for a pattern
outside the fragment. -/
def parseItems : List Char → Option (List RegexItem)
  | [] => some []
  | '^' :: cs => (parseItems cs).map (fun items => RegexItem.beginText :: items)
  | '$' :: cs => (parseItems cs).map (fun items => RegexItem.endText :: items)
  | c :: '+' :: cs =>
    (atomOf c).bind (fun a => (parseItems cs).map (fun items => RegexItem.plus a :: items))
  | c :: '*' :: cs =>
    (atomOf c).bind (fun a => (parseItems cs).map (fun items => RegexItem.star a :: items))
  | c :: cs =>
    (atomOf c).bind (fun a => (parseItems cs).map (fun items => RegexItem.one a :: items))

/-- A fragment of the library function `regexp.Compile`: the patterns made of
literal characters, `.`, `^`, `$` and the repetitions `+` and `*` of one
character or of `.`, among them the default pattern `^.+$`. A pattern with
another construct (a class, a group, an alternative, an escape, `?`), which
the library accepts, is outside the fragment and reported as an error here. -/
def compileFragment (expr : String) : Except Error Regexp :=
  match parseItems expr.data with
  | some items => .ok (regexpOf items)
  | none => .error (.External "regexp: pattern outside the fragment")

/-- The regexp of the default pattern `^.+$`. -/
def defaultRegexp : Regexp :=
  regexpOf [.beginText, .plus .anyCharNotNL, .endText]

/-! ## Example inputs -/

/-- A target with prefix `api` and no static labels. -/
def exampleConfig : Config :=
  { Target := "http://localhost:9100/metrics"
    Resource := { Type_ := "gce_instance", Labels := (∅ : StrMap).insert "project_id" "p" }
    Metric := { Prefix := ["api"], Labels := ∅, Filter := "" }
    Prefix := []
    Interval := 60000000000
    Project := "p"
    Filter := { MatchString := fun _ => true } }

/-- An instance with the given labels whose payloads are all at their defaults. -/
def emptyMetric (labels : List client_model.LabelPair) : client_model.Metric Int :=
  { GetLabel := labels
    GetGauge := { GetValue := 0 }
    GetCounter := { GetValue := 0 }
    GetSummary := { GetSampleCount := 0, GetSampleSum := 0, GetQuantile := [] }
    GetUntyped := { GetValue := 0 }
    GetHistogram := { GetSampleCount := 0, GetSampleSum := 0, GetBucket := [] } }

/-- The counter family `http_requests_total{method="GET"} 42`. -/
def exampleCounter : client_model.MetricFamily Int :=
  { GetName := "http_requests_total"
    GetType := client_model.MetricType_COUNTER
    GetMetric := [{ emptyMetric [{ GetName := "method", GetValue := "GET" }] with
      GetCounter := { GetValue := 42 } }] }

/-- A family with no instance and a type tag outside the five known ones. -/
def exampleUnknownEmpty : client_model.MetricFamily Int :=
  { GetName := "x", GetType := 5, GetMetric := [] }

/-- A family with one instance and a type tag outside the five known ones. -/
def exampleUnknown : client_model.MetricFamily Int :=
  { GetName := "x", GetType := 5, GetMetric := [emptyMetric []] }

/-- The summary family `latency`: one instance with sum 10, count 5 and the
quantiles 50 (value 2) and 99 (value 7); the numbers stand for `float64` values. -/
def exampleSummary : client_model.MetricFamily Int :=
  { GetName := "latency"
    GetType := client_model.MetricType_SUMMARY
    GetMetric := [{ emptyMetric [] with
      GetSummary := { GetSampleCount := 5, GetSampleSum := 10,
                      GetQuantile := [{ GetQuantile := 50, GetValue := 2 },
                                      { GetQuantile := 99, GetValue := 7 }] } }] }

/-- The histogram family `size`: one instance with sum 12, count 4 and the
buckets up to 1 (3 samples) and up to 8 (4 samples). -/
def exampleHistogram : client_model.MetricFamily Int :=
  { GetName := "size"
    GetType := client_model.MetricType_HISTOGRAM
    GetMetric := [{ emptyMetric [] with
      GetHistogram := { GetSampleCount := 4, GetSampleSum := 12,
                        GetBucket := [{ GetCumulativeCount := 3, GetUpperBound := 1 },
                                      { GetCumulativeCount := 4, GetUpperBound := 8 }] } }] }

/-- A target whose static labels set `mode`. -/
def exampleModeConfig : Config :=
  { exampleConfig with
    Metric := { Prefix := [], Labels := (∅ : StrMap).insert "mode" "fixed", Filter := "" } }

/-- A summary family whose instance carries a label `mode` of its own and
declares no quantile. -/
def exampleModeSummary : client_model.MetricFamily Int :=
  { GetName := "latency"
    GetType := client_model.MetricType_SUMMARY
    GetMetric := [{ emptyMetric [{ GetName := "mode", GetValue := "raw" }] with
      GetSummary := { GetSampleCount := 5, GetSampleSum := 10, GetQuantile := [] } }] }

/-- The series of `exampleModeSummary` under `exampleModeConfig` at time 0. -/
def exampleModeSeries : List (pb_monitoring.TimeSeries Int) :=
  [{ Resource := { Type_ := "gce_instance", Labels := (∅ : StrMap).insert "project_id" "p" }
     Metric := { Type_ := "custom.googleapis.com/latency"
                 Labels := (∅ : StrMap).insert "mode" "fixed" }
     MetricKind := .GAUGE
     Points := [{ Interval := { EndTime := { Seconds := 0 } }, Value := .DoubleValue 10 }] },
   { Resource := { Type_ := "gce_instance", Labels := (∅ : StrMap).insert "project_id" "p" }
     Metric := { Type_ := "custom.googleapis.com/latency"
                 Labels := (∅ : StrMap).insert "mode" "fixed" }
     MetricKind := .GAUGE
     Points := [{ Interval := { EndTime := { Seconds := 0 } }, Value := .DoubleValue 5 }] }]

/-- A series of the family `latency` under `exampleConfig` at time 0. -/
def exampleLatencySeries (labels : StrMap) (value : Int) : pb_monitoring.TimeSeries Int :=
  { Resource := { Type_ := "gce_instance", Labels := (∅ : StrMap).insert "project_id" "p" }
    Metric := { Type_ := "custom.googleapis.com/api/latency", Labels := labels }
    MetricKind := .GAUGE
    Points := [{ Interval := { EndTime := { Seconds := 0 } }, Value := .DoubleValue value }] }

/-- The series of `exampleSummary` under `exampleConfig` at time 0. -/
def exampleSummarySeries : List (pb_monitoring.TimeSeries Int) :=
  [exampleLatencySeries ((∅ : StrMap).insert "mode" "sum") 10,
   exampleLatencySeries ((∅ : StrMap).insert "mode" "count") 5,
   exampleLatencySeries (((∅ : StrMap).insert "quantile" "50").insert "mode" "quantile") 2,
   exampleLatencySeries (((∅ : StrMap).insert "quantile" "99").insert "mode" "quantile") 7]

/-- The fetched map with the counter family and, under the name `x`, a family
of unknown type. The entry added last comes first. -/
def exampleFamilies : FamilyMap Int :=
  ((∅ : FamilyMap Int).insert "x" exampleUnknown).insert "http_requests_total" exampleCounter

/-- The same map with its entries in the other order. -/
def exampleFamiliesSwapped : FamilyMap Int :=
  ((∅ : FamilyMap Int).insert "http_requests_total" exampleCounter).insert "x" exampleUnknown

/-- A world where the target answers 200 and the body parses to `families`, at time 0. -/
def exampleEnv (families : FamilyMap Int) : Env Int :=
  { Get := fun _ => .ok { StatusCode := 200, Body := "" }
    TextToMetricFamilies := fun _ => .ok families
    Now := fun _ => 0 }

/-- A world where the target answers 500. -/
def exampleEnv500 : Env Int :=
  { Get := fun _ => .ok { StatusCode := 500, Body := "internal error" }
    TextToMetricFamilies := fun _ => .ok exampleFamilies
    Now := fun _ => 0 }

/-- The example target with a filter that accepts the name `http_requests_total` only. -/
def exampleFilterConfig : Config :=
  { exampleConfig with
    Filter := { MatchString := fun name => name == "http_requests_total" } }

/-- A client that accepts every request. -/
def exampleClient : MetricClient Int :=
  { CreateTimeSeries := fun _ _ => none }

/-- A worker that has done nothing yet. -/
def exampleWorker : WorkerState Int :=
  { requests := [], logged := [] }

/-- A descriptor without filter and with the given interval string. -/
def exampleExpr (interval : String) : ConfigExpr :=
  { Target := "http://localhost:9100/metrics"
    Resource := { Type_ := "gce_instance", Labels := (∅ : StrMap).insert "project_id" "p" }
    Metric := { Prefix := ["api"], Labels := ∅, Filter := "" }
    Interval := interval }

/-- A configuration file that decodes to three descriptors, with the intervals
`90s`, `0` and `-5s`. -/
def exampleLib : ConfigLib :=
  { ReadFile := fun _ => .ok "[...]"
    Unmarshal := fun _ => .ok [exampleExpr "90s", exampleExpr "0", exampleExpr "-5s"]
    ParseDuration := parseDurationFragment
    Compile := compileFragment }

/-- The Config of the descriptor `exampleExpr interval` when the interval is `duration`. -/
def exampleRead (interval : String) (duration : Int) : Config :=
  { Target := (exampleExpr interval).Target
    Resource := (exampleExpr interval).Resource
    Metric := (exampleExpr interval).Metric
    Prefix := []
    Interval := duration
    Project := "p"
    Filter := defaultRegexp }

/-- The Configs `ReadConfig` builds from the example file. -/
def exampleConfigs : List Config :=
  [exampleRead "90s" 90000000000, exampleRead "0" 0, exampleRead "-5s" (-5000000000)]

/-- The fetched map with the counter family only. -/
def exampleCounterFamilies : FamilyMap Int :=
  (∅ : FamilyMap Int).insert "http_requests_total" exampleCounter

/-- The series of `exampleCounter` under `exampleConfig` at time 0. -/
def exampleCounterSeries : pb_monitoring.TimeSeries Int :=
  { Resource := { Type_ := "gce_instance", Labels := (∅ : StrMap).insert "project_id" "p" }
    Metric := { Type_ := "custom.googleapis.com/api/http_requests_total"
                Labels := (∅ : StrMap).insert "method" "GET" }
    MetricKind := .GAUGE
    Points := [{ Interval := { EndTime := { Seconds := 0 } }, Value := .DoubleValue 42 }] }

/-- A target whose static labels set `job`. -/
def exampleLabelsConfig : Config :=
  { exampleConfig with
    Metric := { Prefix := [], Labels := (∅ : StrMap).insert "job" "fixed", Filter := "" } }

/-- A summary family whose instance carries the labels `mode`, `job` and `zone`
and declares no quantile. -/
def exampleLabelsSummary : client_model.MetricFamily Int :=
  { GetName := "latency"
    GetType := client_model.MetricType_SUMMARY
    GetMetric := [{ emptyMetric [{ GetName := "mode", GetValue := "raw" },
                                 { GetName := "job", GetValue := "a" },
                                 { GetName := "zone", GetValue := "z" }] with
      GetSummary := { GetSampleCount := 5, GetSampleSum := 10, GetQuantile := [] } }] }

/-- A series of `exampleLabelsSummary` under `exampleLabelsConfig` at time 0:
`zone` is the label of the instance, `mode` the one of the expansion and
`job` the static one. -/
def exampleLabelsSeries (mode : String) (value : Int) : pb_monitoring.TimeSeries Int :=
  { Resource := { Type_ := "gce_instance", Labels := (∅ : StrMap).insert "project_id" "p" }
    Metric := { Type_ := "custom.googleapis.com/latency"
                Labels := (((∅ : StrMap).insert "zone" "z").insert "mode" mode).insert
                  "job" "fixed" }
    MetricKind := .GAUGE
    Points := [{ Interval := { EndTime := { Seconds := 0 } }, Value := .DoubleValue value }] }

/-- The fetched map with the counter family under the empty name. -/
def exampleUnnamedFamilies : FamilyMap Int :=
  (∅ : FamilyMap Int).insert "" exampleCounter

/-! ## Maps -/

theorem lookup_foldl_insert (l : List (Sigma fun _ : String => String)) (hl : l.NodupKeys)
    (ret : StrMap) (k : String) :
    AList.lookup k (l.foldl (fun ret e => ret.insert e.1 e.2) ret)
      = (l.dlookup k).or (AList.lookup k ret) := by
  induction l generalizing ret with
  | nil => simp
  | cons e t ih =>
    obtain ⟨a, b⟩ := e
    rw [List.nodupKeys_cons] at hl
    rw [List.foldl_cons, ih hl.2]
    by_cases hk : k = a
    · subst hk
      have hnone : List.dlookup k t = none := List.dlookup_eq_none.mpr hl.1
      simp [hnone, AList.lookup_insert]
    · have hne : List.dlookup k (⟨a, b⟩ :: t) = List.dlookup k t :=
        List.dlookup_cons_ne t ⟨a, b⟩ hk
      simp [hne, AList.lookup_insert_ne hk]

theorem lookup_range_insert (m ret : StrMap) (k : String) :
    AList.lookup k (m.entries.foldl (fun ret e => ret.insert e.1 e.2) ret)
      = (AList.lookup k m).or (AList.lookup k ret) :=
  lookup_foldl_insert m.entries m.nodupKeys ret k

theorem lookup_mergeMaps3 (a b c : StrMap) (k : String) :
    AList.lookup k (mergeMaps [a, b, c])
      = (AList.lookup k c).or ((AList.lookup k b).or (AList.lookup k a)) := by
  simp [mergeMaps, lookup_range_insert, Option.or_none]

theorem mem_mergeMaps3 (a b c : StrMap) (k : String) :
    k ∈ mergeMaps [a, b, c] ↔ k ∈ a ∨ k ∈ b ∨ k ∈ c := by
  simp only [← AList.lookup_isSome, lookup_mergeMaps3, Option.isSome_or, Bool.or_eq_true]
  tauto

/-! ## Translation of one family -/

theorem foldlM_ok_append {α β : Type} (h : α → β) (l : List α) (st : List β) :
    l.foldlM (fun st a => (Except.ok (st ++ [h a]) : Except Error (List β))) st
      = .ok (st ++ l.map h) := by
  induction l generalizing st with
  | nil => simp [pure, Except.pure]
  | cons a t ih =>
    rw [List.foldlM_cons]
    show t.foldlM _ (st ++ [h a]) = _
    rw [ih]
    simp

/-- With a callback that appends one element per call and never fails, `each`
succeeds and appends one element per emitted argument triple, in order. -/
theorem each_ok_append {F τ : Type} [Float64 F]
    (g : pb_monitoring.TypedValue F → pb_metric.MetricDescriptor_MetricKind → StrMap → τ)
    (pv : promMetricValues F) (st : List τ) :
    pv.each (fun value kind labelsAdd st => .ok (st ++ [g value kind labelsAdd])) st
      = .ok (st ++ (emitted pv).map (fun e => g e.1 e.2.1 e.2.2)) := by
  cases pv with
  | promGauge v => simp [promMetricValues.each, emitted]
  | promSummary v =>
    simp [promMetricValues.each, emitted, bind, Except.bind, foldlM_ok_append]
  | promHistgram v =>
    simp [promMetricValues.each, emitted, bind, Except.bind, foldlM_ok_append]

theorem emitted_promGauge {F : Type} [Float64 F] (v : F) :
    emitted (.promGauge v) = [(toDoubleValue v, .GAUGE, ∅)] := by
  simp [promMetricValues.each, emitted]

theorem emitted_promSummary {F : Type} [Float64 F] (v : client_model.Summary F) :
    emitted (.promSummary v)
      = (toDoubleValue v.GetSampleSum, .GAUGE, (∅ : StrMap).insert "mode" "sum")
        :: (toDoubleValue (Float64.ofUint64 v.GetSampleCount), .GAUGE,
            (∅ : StrMap).insert "mode" "count")
        :: v.GetQuantile.map (fun quantile =>
            (toDoubleValue quantile.GetValue, .GAUGE,
              ((∅ : StrMap).insert "mode" "quantile").insert "quantile"
                (Float64.sprintV quantile.GetQuantile))) := by
  simp [promMetricValues.each, emitted, bind, Except.bind, foldlM_ok_append]

theorem emitted_promHistgram {F : Type} [Float64 F] (v : client_model.Histogram F) :
    emitted (.promHistgram v)
      = (toDoubleValue v.GetSampleSum, .GAUGE, (∅ : StrMap).insert "mode" "sum")
        :: (toDoubleValue (Float64.ofUint64 v.GetSampleCount), .GAUGE,
            (∅ : StrMap).insert "mode" "count")
        :: v.GetBucket.map (fun bucket =>
            (toDoubleValue (Float64.ofUint64 bucket.GetCumulativeCount), .GAUGE,
              ((∅ : StrMap).insert "mode" "bucket").insert "le"
                (Float64.sprintV bucket.GetUpperBound))) := by
  simp [promMetricValues.each, emitted, bind, Except.bind, foldlM_ok_append]

theorem foldlM_ok_flatMap {α β : Type} (body : List β → α → Except Error (List β))
    (G : α → List β) (hbody : ∀ ret a, body ret a = .ok (ret ++ G a)) (l : List α)
    (st : List β) :
    l.foldlM body st = .ok (st ++ l.flatMap G) := by
  induction l generalizing st with
  | nil => simp [pure, Except.pure]
  | cons a t ih =>
    rw [List.foldlM_cons, hbody]
    show t.foldlM body (st ++ G a) = _
    rw [ih]
    simp

/-- When the type tag is accepted for every instance, `toTimeSeries` succeeds
with the concatenation of the series of the instances, in instance order. -/
theorem toTimeSeries_ok {F : Type} [Float64 F] (caseTable : Char → Char) (now : Int)
    (cfg : Config) (family : client_model.MetricFamily F)
    (pvf : client_model.Metric F → promMetricValues F)
    (hpv : ∀ metric, newPromMetricValues family.GetType metric = .ok (pvf metric)) :
    toTimeSeries caseTable now cfg family
      = .ok (family.GetMetric.flatMap (fun metric =>
          seriesOfInstance caseTable now cfg family metric (pvf metric))) := by
  unfold toTimeSeries
  simp only []
  rw [foldlM_ok_flatMap _ (fun metric =>
    seriesOfInstance caseTable now cfg family metric (pvf metric))]
  · simp
  · intro ret metric
    simp only [hpv, bind, Except.bind]
    rw [each_ok_append]
    rfl

theorem toTimeSeries_nil {F : Type} [Float64 F] (caseTable : Char → Char) (now : Int)
    (cfg : Config) (family : client_model.MetricFamily F) (hnil : family.GetMetric = []) :
    toTimeSeries caseTable now cfg family = .ok [] := by
  unfold toTimeSeries
  simp [hnil, pure, Except.pure]

theorem newPromMetricValues_unknown {F : Type} (metricType : client_model.MetricType)
    (metric : client_model.Metric F)
    (h1 : metricType ≠ client_model.MetricType_GAUGE)
    (h2 : metricType ≠ client_model.MetricType_COUNTER)
    (h3 : metricType ≠ client_model.MetricType_UNTYPED)
    (h4 : metricType ≠ client_model.MetricType_SUMMARY)
    (h5 : metricType ≠ client_model.MetricType_HISTOGRAM) :
    newPromMetricValues metricType metric = .error (.UnknownMetricType metricType) := by
  simp [newPromMetricValues, h1, h2, h3, h4, h5]

theorem toTimeSeries_error {F : Type} [Float64 F] (caseTable : Char → Char) (now : Int)
    (cfg : Config) (family : client_model.MetricFamily F) (err : Error)
    (herr : ∀ metric : client_model.Metric F,
      newPromMetricValues family.GetType metric = .error err)
    (hne : family.GetMetric ≠ []) :
    toTimeSeries caseTable now cfg family = .error err := by
  unfold toTimeSeries
  cases hm : family.GetMetric with
  | nil => exact absurd hm hne
  | cons metric rest =>
    simp only [List.foldlM_cons, herr, bind, Except.bind]

theorem toTimeSeries_unknown {F : Type} [Float64 F] (caseTable : Char → Char) (now : Int)
    (cfg : Config) (family : client_model.MetricFamily F)
    (h1 : family.GetType ≠ client_model.MetricType_GAUGE)
    (h2 : family.GetType ≠ client_model.MetricType_COUNTER)
    (h3 : family.GetType ≠ client_model.MetricType_UNTYPED)
    (h4 : family.GetType ≠ client_model.MetricType_SUMMARY)
    (h5 : family.GetType ≠ client_model.MetricType_HISTOGRAM)
    (hne : family.GetMetric ≠ []) :
    toTimeSeries caseTable now cfg family = .error (.UnknownMetricType family.GetType) :=
  toTimeSeries_error caseTable now cfg family _
    (fun metric => newPromMetricValues_unknown _ metric h1 h2 h3 h4 h5) hne

/-- The type tag decides alone whether `newPromMetricValues` succeeds. -/
theorem newPromMetricValues_cases {F : Type} (metricType : client_model.MetricType) :
    (∃ pvf : client_model.Metric F → promMetricValues F,
        ∀ metric, newPromMetricValues metricType metric = .ok (pvf metric))
    ∨ ∀ metric : client_model.Metric F,
        newPromMetricValues metricType metric = .error (.UnknownMetricType metricType) := by
  by_cases h4 : metricType = client_model.MetricType_SUMMARY
  · exact Or.inl ⟨fun metric => .promSummary metric.GetSummary, fun metric => by
      simp [newPromMetricValues, h4]⟩
  by_cases h5 : metricType = client_model.MetricType_HISTOGRAM
  · exact Or.inl ⟨fun metric => .promHistgram metric.GetHistogram, fun metric => by
      unfold newPromMetricValues
      rw [if_neg h4, if_pos h5]⟩
  by_cases h3 : metricType = client_model.MetricType_UNTYPED
  · exact Or.inl ⟨fun metric => .promGauge metric.GetUntyped.GetValue, fun metric => by
      unfold newPromMetricValues
      rw [if_neg h4, if_neg h5, if_pos h3]⟩
  by_cases h2 : metricType = client_model.MetricType_COUNTER
  · exact Or.inl ⟨fun metric => .promGauge metric.GetCounter.GetValue, fun metric => by
      unfold newPromMetricValues
      rw [if_neg h4, if_neg h5, if_neg h3, if_pos h2]⟩
  by_cases h1 : metricType = client_model.MetricType_GAUGE
  · exact Or.inl ⟨fun metric => .promGauge metric.GetGauge.GetValue, fun metric => by
      unfold newPromMetricValues
      rw [if_neg h4, if_neg h5, if_neg h3, if_neg h2, if_pos h1]⟩
  exact Or.inr (fun metric => newPromMetricValues_unknown _ metric h1 h2 h3 h4 h5)

theorem forall₂_map_of_forall {α β : Type} (R : α → β → Prop) (f : α → β) (l : List α)
    (h : ∀ a, R a (f a)) : List.Forall₂ R l (l.map f) := by
  induction l with
  | nil => exact List.Forall₂.nil
  | cons a t ih => exact List.Forall₂.cons (h a) ih

theorem flatMap_singleton_eq_map {α β : Type} (f : α → β) (l : List α) :
    l.flatMap (fun a => [f a]) = l.map f := by
  induction l with
  | nil => rfl
  | cons a t ih => simp [List.flatMap_cons, ih]

/-! ## Name normalization -/

theorem regClass_eq_not_lowerAlnum (c : Char) : regClass c = !lowerAlnum c := by
  simp only [regClass, lowerAlnum, Char.isLower, Char.isDigit, Char.toNat, ge_iff_le,
    UInt32.le_def, Fin.le_def]
  rfl

theorem splitBy_loop_append {α : Type} (r : α → α → Bool) (l : List α) (a : α) (g : List α)
    (gs : List (List α)) :
    List.splitBy.loop r l a g gs = gs.reverse ++ List.splitBy.loop r l a g [] := by
  induction l generalizing a g gs with
  | nil => simp [List.splitBy.loop]
  | cons b l ih =>
    simp only [List.splitBy.loop]
    cases r a b with
    | true => exact ih b (a :: g) gs
    | false =>
      rw [ih b [] ((a :: g).reverse :: gs), ih b [] [(a :: g).reverse]]
      simp

theorem splitBy_loop_class {α : Type} (p : α → Bool) (l : List α) (a : α) (g : List α) :
    List.splitBy.loop (fun x y => p x == p y) l a g []
      = (g.reverse ++ a :: l.takeWhile (fun b => p b == p a))
        :: List.splitBy (fun x y => p x == p y) (l.dropWhile (fun b => p b == p a)) := by
  induction l generalizing a g with
  | nil => simp [List.splitBy.loop, List.splitBy]
  | cons b l ih =>
    simp only [List.splitBy.loop]
    cases hab : (p a == p b) with
    | true =>
      have hpp : p b = p a := (beq_iff_eq.mp hab).symm
      have hba : (p b == p a) = true := beq_iff_eq.mpr hpp
      simp only [ih b (a :: g), List.takeWhile_cons, List.dropWhile_cons, hba, if_true, hpp]
      simp
    | false =>
      have hba : (p b == p a) = false := by
        cases h1 : p a <;> cases h2 : p b <;> simp_all
      rw [splitBy_loop_append _ l b [] [(a :: g).reverse]]
      simp [List.takeWhile_cons, List.dropWhile_cons, hba, List.splitBy]

theorem splitBy_class_cons {α : Type} (p : α → Bool) (a : α) (l : List α) :
    List.splitBy (fun x y => p x == p y) (a :: l)
      = (a :: l.takeWhile (fun b => p b == p a))
        :: List.splitBy (fun x y => p x == p y) (l.dropWhile (fun b => p b == p a)) := by
  simpa [List.splitBy] using splitBy_loop_class p l a []

theorem replaceAllRuns_true (l : List Char) :
    replaceAllRuns true l = replaceAllRuns false (l.dropWhile regClass) := by
  induction l with
  | nil => rfl
  | cons c cs ih =>
    by_cases hc : regClass c = true
    · simp [replaceAllRuns, List.dropWhile_cons, hc, ih]
    · simp [replaceAllRuns, List.dropWhile_cons, hc]

theorem replaceAllRuns_false (l : List Char) :
    replaceAllRuns false l
      = l.takeWhile lowerAlnum ++ replaceAllRuns false (l.dropWhile lowerAlnum) := by
  induction l with
  | nil => rfl
  | cons c cs ih =>
    by_cases hc : regClass c = true
    · have hl : lowerAlnum c = false := by
        rw [regClass_eq_not_lowerAlnum] at hc
        simpa using hc
      simp [List.takeWhile_cons, List.dropWhile_cons, hl]
    · have hl : lowerAlnum c = true := by
        rw [regClass_eq_not_lowerAlnum] at hc
        simpa using hc
      rw [List.takeWhile_cons, List.dropWhile_cons]
      simp only [hl, if_true]
      rw [replaceAllRuns, if_neg hc, ih]
      simp

theorem replaceAllRuns_eq_spec_aux (n : Nat) :
    ∀ l : List Char, l.length ≤ n → replaceAllRuns false l = replaceRunsSpec l := by
  induction n with
  | zero =>
    intro l hl
    have hnil : l = [] := List.length_eq_zero.mp (Nat.le_zero.mp hl)
    subst hnil
    rfl
  | succ n ih =>
    intro l hl
    cases l with
    | nil => rfl
    | cons a t =>
      have ht : t.length ≤ n := Nat.le_of_succ_le_succ hl
      unfold replaceRunsSpec
      rw [splitBy_class_cons, List.flatMap_cons]
      by_cases hc : regClass a = true
      · have hl : lowerAlnum a = false := by
          rw [regClass_eq_not_lowerAlnum] at hc
          simpa using hc
        have hfun : (fun b => lowerAlnum b == lowerAlnum a) = regClass := by
          funext b
          rw [regClass_eq_not_lowerAlnum, hl]
          cases lowerAlnum b <;> rfl
        have hlen : (t.dropWhile regClass).length ≤ n :=
          Nat.le_trans (List.Sublist.length_le (List.dropWhile_sublist _)) ht
        rw [hfun]
        have hrec := ih (t.dropWhile regClass) hlen
        unfold replaceRunsSpec at hrec
        rw [← hrec]
        simp [replaceAllRuns, hc, hl, replaceAllRuns_true]
      · have hl : lowerAlnum a = true := by
          rw [regClass_eq_not_lowerAlnum] at hc
          simpa using hc
        have hfun : (fun b => lowerAlnum b == lowerAlnum a) = lowerAlnum := by
          funext b
          rw [hl]
          cases lowerAlnum b <;> rfl
        have hlen : (t.dropWhile lowerAlnum).length ≤ n :=
          Nat.le_trans (List.Sublist.length_le (List.dropWhile_sublist _)) ht
        rw [hfun]
        have hrec := ih (t.dropWhile lowerAlnum) hlen
        unfold replaceRunsSpec at hrec
        rw [← hrec]
        have hall : (a :: t.takeWhile lowerAlnum).all lowerAlnum = true := by
          simp only [List.all_cons, hl, Bool.true_and, List.all_eq_true]
          intro x hx
          exact List.mem_takeWhile_imp hx
        rw [if_pos hall, replaceAllRuns, if_neg hc, replaceAllRuns_false t]
        simp

/-- The scan computes what the specification describes. -/
theorem replaceAllRuns_eq_spec (l : List Char) : replaceAllRuns false l = replaceRunsSpec l :=
  replaceAllRuns_eq_spec_aux l.length l (Nat.le_refl _)

theorem regClass_underscore : regClass '_' = true := by decide

theorem replaceAllRuns_true_head (l : List Char) :
    (replaceAllRuns true l).head? ≠ some '_' := by
  induction l with
  | nil => simp [replaceAllRuns]
  | cons c cs ih =>
    by_cases hc : regClass c = true
    · simpa [replaceAllRuns, hc] using ih
    · simp only [replaceAllRuns, hc, List.head?_cons]
      intro h
      injection h with h
      exact hc (h ▸ regClass_underscore)

theorem replaceAllRuns_chars (inMatch : Bool) (l : List Char) :
    ∀ c ∈ replaceAllRuns inMatch l, regClass c = false ∨ c = '_' := by
  induction l generalizing inMatch with
  | nil => simp [replaceAllRuns]
  | cons a t ih =>
    intro c hmem
    by_cases ha : regClass a = true
    · cases inMatch with
      | true =>
        simp only [replaceAllRuns, ha, if_true] at hmem
        exact ih true c hmem
      | false =>
        simp only [replaceAllRuns, ha, if_true, Bool.false_eq_true, if_false,
          List.mem_cons] at hmem
        rcases hmem with h | h
        · exact Or.inr h
        · exact ih true c h
    · have ha2 : regClass a = false := by simpa using ha
      simp only [replaceAllRuns, ha2, Bool.false_eq_true, if_false, List.mem_cons] at hmem
      rcases hmem with h | h
      · exact Or.inl (h ▸ ha2)
      · exact ih false c h

theorem replaceAllRuns_chain (inMatch : Bool) (l : List Char) :
    List.Chain' (fun a b => ¬(a = '_' ∧ b = '_')) (replaceAllRuns inMatch l) := by
  induction l generalizing inMatch with
  | nil => simp [replaceAllRuns]
  | cons a t ih =>
    by_cases ha : regClass a = true
    · cases inMatch with
      | true =>
        simp only [replaceAllRuns, ha, if_true]
        exact ih true
      | false =>
        simp only [replaceAllRuns, ha, if_true, Bool.false_eq_true, if_false]
        rw [List.chain'_cons']
        refine ⟨?_, ih true⟩
        intro y hy h
        exact replaceAllRuns_true_head t (by rw [Option.mem_def.mp hy, h.2])
    · have ha2 : regClass a = false := by simpa using ha
      simp only [replaceAllRuns, ha2, Bool.false_eq_true, if_false]
      rw [List.chain'_cons']
      refine ⟨?_, ih false⟩
      intro y _ h
      exact ha (h.1 ▸ regClass_underscore)

/-- A string of characters of `[a-z0-9_]` without two adjacent `_` is left
alone by the scan. -/
theorem replaceAllRuns_fixed (l : List Char)
    (hchars : ∀ c ∈ l, regClass c = false ∨ c = '_')
    (hchain : List.Chain' (fun a b => ¬(a = '_' ∧ b = '_')) l) :
    replaceAllRuns false l = l ∧ (l.head? ≠ some '_' → replaceAllRuns true l = l) := by
  induction l with
  | nil => simp [replaceAllRuns]
  | cons a t ih =>
    rw [List.chain'_cons'] at hchain
    obtain ⟨hhead, htail⟩ := hchain
    have iht := ih (fun c hc => hchars c (List.mem_cons_of_mem _ hc)) htail
    by_cases ha : regClass a = true
    · have hau : a = '_' := by
        rcases hchars a (List.mem_cons_self _ _) with h | h
        · rw [h] at ha
          cases ha
        · exact h
      have hth : t.head? ≠ some '_' := by
        intro h
        exact hhead '_' (Option.mem_def.mpr h) ⟨hau, rfl⟩
      refine ⟨?_, ?_⟩
      · simp only [replaceAllRuns, ha, if_true, Bool.false_eq_true, if_false]
        rw [iht.2 hth, hau]
      · intro h
        exact absurd (by rw [List.head?_cons, hau]) h
    · have ha2 : regClass a = false := by simpa using ha
      refine ⟨?_, fun _ => ?_⟩
      · simp only [replaceAllRuns, ha2, Bool.false_eq_true, if_false]
        rw [iht.1]
      · simp only [replaceAllRuns, ha2, Bool.false_eq_true, if_false]
        rw [iht.1]

theorem unicodeToLower_fixed (caseTable : Char → Char) (c : Char)
    (hc : regClass c = false ∨ c = '_') : unicodeToLower caseTable c = c := by
  have hn : c.toNat ≤ 127 ∧ ¬('A'.toNat ≤ c.toNat ∧ c.toNat ≤ 'Z'.toNat) := by
    rcases hc with h | h
    · simp only [regClass, Bool.not_eq_false', Bool.or_eq_true, Bool.and_eq_true,
        decide_eq_true_eq] at h
      have e1 : 'a'.toNat = 97 := rfl
      have e2 : 'z'.toNat = 122 := rfl
      have e3 : '0'.toNat = 48 := rfl
      have e4 : '9'.toNat = 57 := rfl
      have e5 : 'A'.toNat = 65 := rfl
      have e6 : 'Z'.toNat = 90 := rfl
      rw [e1, e2, e3, e4] at h
      rw [e5, e6]
      omega
    · subst h
      decide
  unfold unicodeToLower
  rw [if_pos hn.1, if_neg hn.2]

theorem map_unicodeToLower_fixed (caseTable : Char → Char) (l : List Char)
    (hchars : ∀ c ∈ l, regClass c = false ∨ c = '_') :
    l.map (unicodeToLower caseTable) = l := by
  induction l with
  | nil => rfl
  | cons a t ih =>
    rw [List.map_cons, unicodeToLower_fixed caseTable a (hchars a (List.mem_cons_self _ _)),
      ih (fun c hc => hchars c (List.mem_cons_of_mem _ hc))]

theorem normalizeName_fixed (caseTable : Char → Char) (s : String) :
    normalizeName caseTable (normalizeName caseTable s) = normalizeName caseTable s := by
  have hchars := replaceAllRuns_chars false (stringsToLower caseTable s).data
  have hchain := replaceAllRuns_chain false (stringsToLower caseTable s).data
  show String.mk (replaceAllRuns false
      ((replaceAllRuns false (stringsToLower caseTable s).data).map (unicodeToLower caseTable)))
    = String.mk (replaceAllRuns false (stringsToLower caseTable s).data)
  rw [map_unicodeToLower_fixed caseTable _ hchars, (replaceAllRuns_fixed _ hchars hchain).1]

theorem intercalate_go_append (acc sep : String) (as : List String) (y : String) :
    String.intercalate.go acc sep (as ++ [y]) = String.intercalate.go acc sep as ++ sep ++ y := by
  induction as generalizing acc with
  | nil => simp [String.intercalate.go]
  | cons a t ih => simp [String.intercalate.go, ih]

theorem foldl_segments (pfx : List String) (strs : List String) :
    pfx.foldl (fun strs str => if str ≠ "" then strs ++ [regReplaceAllString str] else strs) strs
      = strs ++ (pfx.filter (fun str => str ≠ "")).map regReplaceAllString := by
  induction pfx generalizing strs with
  | nil => simp
  | cons a t ih =>
    rw [List.foldl_cons, ih]
    by_cases ha : a = ""
    · simp [ha]
    · simp [ha]

theorem newPbMetricType_unfold (caseTable : Char → Char) (pfx : List String) (name : String) :
    newPbMetricType caseTable pfx name
      = String.intercalate "/" ("custom.googleapis.com"
          :: ((pfx.filter (fun str => str ≠ "")).map regReplaceAllString
              ++ [normalizeName caseTable name])) := by
  unfold newPbMetricType
  simp only [foldl_segments, List.nil_append, List.append_assoc]
  rfl

/-! ## Dispatch in batches -/

theorem slice_length {α : Type} (ts : List α) (i j : Nat) :
    (slice ts i j).length = min j ts.length - i := by
  simp [slice]

theorem slice_append_drop {α : Type} (ts : List α) (i j : Nat) (hij : i ≤ j) :
    slice ts i j ++ ts.drop j = ts.drop i := by
  unfold slice
  by_cases hj : j ≤ ts.length
  · have hlen : i ≤ (ts.take j).length := by
      rw [List.length_take]
      omega
    rw [← List.drop_append_of_le_length hlen, List.take_append_drop]
  · have hj2 : ts.length ≤ j := by omega
    rw [List.take_of_length_le hj2, List.drop_eq_nil_of_le hj2, List.append_nil]

theorem eachChunk_loop_step {α σ : Type} (ts : List α) (g : σ → List α → σ) (i : Nat) (st : σ)
    (hi : i < ts.length) :
    eachChunk.loop ts (fun c s => .ok (g s c)) i st
      = eachChunk.loop ts (fun c s => .ok (g s c)) (i + chunkSize)
          (g st (slice ts i (if i + chunkSize > ts.length then ts.length else i + chunkSize))) := by
  rw [eachChunk.loop]
  simp only [hi, if_true]

theorem eachChunk_loop_done {α σ : Type} (ts : List α) (f : List α → σ → Except Error σ)
    (i : Nat) (st : σ) (hi : ¬ i < ts.length) :
    eachChunk.loop ts f i st = .ok st := by
  rw [eachChunk.loop]
  simp only [hi, if_false]

/-- The batches the loop started at index `i` hands to a callback that never fails. -/
theorem eachChunk_loop_batches {α : Type} (ts : List α) (n : Nat) :
    ∀ i, ts.length - i ≤ n → ∃ bs : List (List α),
      (∀ (σ : Type) (g : σ → List α → σ) (st : σ),
          eachChunk.loop ts (fun c s => .ok (g s c)) i st = .ok (bs.foldl g st))
      ∧ bs.flatten = ts.drop i
      ∧ bs.length = (ts.length - i + (chunkSize - 1)) / chunkSize
      ∧ (∀ b ∈ bs, 1 ≤ b.length ∧ b.length ≤ chunkSize)
      ∧ (∀ b ∈ bs.dropLast, b.length = chunkSize) := by
  induction n with
  | zero =>
    intro i hi
    have hlt : ¬ i < ts.length := by omega
    refine ⟨[], ?_, ?_, ?_, ?_, ?_⟩
    · intro σ g st
      exact eachChunk_loop_done ts _ i st hlt
    · rw [List.drop_eq_nil_of_le (by omega)]
      rfl
    · simp only [chunkSize, List.length_nil]
      omega
    · intro b hb
      cases hb
    · intro b hb
      cases hb
  | succ n ih =>
    intro i hi
    by_cases hlt : i < ts.length
    · obtain ⟨bs, hrun, hflat, hlen, hsize, hfull⟩ := ih (i + chunkSize) (by
        simp only [chunkSize]
        omega)
      refine ⟨slice ts i (if i + chunkSize > ts.length then ts.length else i + chunkSize)
        :: bs, ?_, ?_, ?_, ?_, ?_⟩
      · intro σ g st
        rw [eachChunk_loop_step ts g i st hlt, hrun σ g, List.foldl_cons]
      · rw [List.flatten_cons, hflat]
        by_cases hend : i + chunkSize > ts.length
        · rw [if_pos hend, List.drop_eq_nil_of_le (Nat.le_of_lt hend), List.append_nil]
          simp [slice]
        · rw [if_neg hend]
          exact slice_append_drop ts i (i + chunkSize) (Nat.le_add_right _ _)
      · rw [List.length_cons, hlen]
        simp only [chunkSize]
        omega
      · intro b hb
        rcases List.mem_cons.mp hb with h | h
        · subst h
          rw [slice_length]
          by_cases hend : i + chunkSize > ts.length
          · rw [if_pos hend]
            simp only [chunkSize] at hend ⊢
            omega
          · rw [if_neg hend]
            simp only [chunkSize] at hend ⊢
            omega
        · exact hsize b h
      · intro b hb
        by_cases hbs : bs = []
        · subst hbs
          cases hb
        · rw [List.dropLast_cons_of_ne_nil hbs] at hb
          rcases List.mem_cons.mp hb with h | h
          · subst h
            have hpos : 0 < bs.length := List.length_pos.mpr hbs
            rw [hlen] at hpos
            rw [slice_length]
            simp only [chunkSize] at hpos ⊢
            have hend : ¬ i + 200 > ts.length := by omega
            rw [if_neg hend]
            omega
          · exact hfull b h
    · refine ⟨[], ?_, ?_, ?_, ?_, ?_⟩
      · intro σ g st
        exact eachChunk_loop_done ts _ i st hlt
      · rw [List.drop_eq_nil_of_le (by omega)]
        rfl
      · simp only [chunkSize, List.length_nil]
        omega
      · intro b hb
        cases hb
      · intro b hb
        cases hb

theorem foldl_record {α : Type} (bs acc : List (List α)) :
    bs.foldl (fun acc c => acc ++ [c]) acc = acc ++ bs := by
  induction bs generalizing acc with
  | nil => simp
  | cons b t ih => simp [ih]

/-- The batches of `eachChunk`: what any callback that never fails receives. -/
theorem eachChunk_spec {α : Type} (ts : List α) :
    (∀ (σ : Type) (g : σ → List α → σ) (st : σ),
        eachChunk ts (fun c s => .ok (g s c)) st = .ok ((batchesOf ts).foldl g st))
    ∧ (batchesOf ts).flatten = ts
    ∧ (batchesOf ts).length = (ts.length + (chunkSize - 1)) / chunkSize
    ∧ (∀ b ∈ batchesOf ts, 1 ≤ b.length ∧ b.length ≤ chunkSize)
    ∧ (∀ b ∈ (batchesOf ts).dropLast, b.length = chunkSize) := by
  obtain ⟨bs, hrun, hflat, hlen, hsize, hfull⟩ :=
    eachChunk_loop_batches ts ts.length 0 (Nat.sub_le _ _)
  have hbs : batchesOf ts = bs := by
    unfold batchesOf eachChunk
    rw [hrun (List (List α)) (fun acc c => acc ++ [c]) [], foldl_record]
    rfl
  rw [hbs]
  exact ⟨fun σ g st => hrun σ g st, by simpa using hflat, by simpa using hlen, hsize, hfull⟩

/-! ## Series of a successful translation -/

/-- Every series of a successful `toTimeSeries` is built by the callback from
one instance of the family and one argument triple of `each`. -/
theorem toTimeSeries_mem {F : Type} [Float64 F] (caseTable : Char → Char) (now : Int)
    (cfg : Config) (family : client_model.MetricFamily F)
    (out : List (pb_monitoring.TimeSeries F))
    (hout : toTimeSeries caseTable now cfg family = .ok out) :
    ∀ ts ∈ out, ∃ metric ∈ family.GetMetric, ∃ pv,
      newPromMetricValues family.GetType metric = .ok pv
      ∧ ∃ e ∈ emitted pv,
        ts = toTimeSeries.series cfg (timeIntervalEnd now)
          (newPbMetricType caseTable cfg.Metric.Prefix family.GetName)
          { Type_ := cfg.Resource.Type_, Labels := cfg.Resource.Labels }
          (labelPairsToMap metric.GetLabel) e.1 e.2.1 e.2.2 := by
  intro ts hts
  rcases newPromMetricValues_cases (F := F) family.GetType with ⟨pvf, hpv⟩ | herr
  · rw [toTimeSeries_ok caseTable now cfg family pvf hpv] at hout
    injection hout with hout
    subst hout
    rw [List.mem_flatMap] at hts
    obtain ⟨metric, hmetric, hts⟩ := hts
    simp only [seriesOfInstance, List.mem_map] at hts
    obtain ⟨e, he, rfl⟩ := hts
    exact ⟨metric, hmetric, pvf metric, hpv metric, e, he, rfl⟩
  · by_cases hnil : family.GetMetric = []
    · rw [toTimeSeries_nil caseTable now cfg family hnil] at hout
      injection hout with hout
      subst hout
      cases hts
    · rw [toTimeSeries_error caseTable now cfg family _ herr hnil] at hout
      cases hout

/-- The output of a successful `toTimeSeries`, instance by instance. -/
theorem toTimeSeries_blocks {F : Type} [Float64 F] (caseTable : Char → Char) (now : Int)
    (cfg : Config) (family : client_model.MetricFamily F)
    (out : List (pb_monitoring.TimeSeries F))
    (hout : toTimeSeries caseTable now cfg family = .ok out) :
    ∃ blocks : List (List (pb_monitoring.TimeSeries F)), out = blocks.flatten
      ∧ List.Forall₂ (fun metric block => ∃ pv,
          newPromMetricValues family.GetType metric = .ok pv
          ∧ block = seriesOfInstance caseTable now cfg family metric pv)
        family.GetMetric blocks := by
  rcases newPromMetricValues_cases (F := F) family.GetType with ⟨pvf, hpv⟩ | herr
  · rw [toTimeSeries_ok caseTable now cfg family pvf hpv] at hout
    injection hout with hout
    subst hout
    refine ⟨family.GetMetric.map (fun metric =>
      seriesOfInstance caseTable now cfg family metric (pvf metric)), rfl, ?_⟩
    apply forall₂_map_of_forall
    intro metric
    exact ⟨pvf metric, hpv metric, rfl⟩
  · by_cases hnil : family.GetMetric = []
    · rw [toTimeSeries_nil caseTable now cfg family hnil] at hout
      injection hout with hout
      subst hout
      refine ⟨[], rfl, ?_⟩
      rw [hnil]
      exact List.Forall₂.nil
    · rw [toTimeSeries_error caseTable now cfg family _ herr hnil] at hout
      cases hout

theorem emitted_kind {F : Type} [Float64 F] (pv : promMetricValues F) :
    ∀ e ∈ emitted pv, e.2.1 = pb_metric.MetricDescriptor_MetricKind.GAUGE := by
  intro e he
  cases pv with
  | promGauge v =>
    rw [emitted_promGauge] at he
    simp only [List.mem_singleton] at he
    rw [he]
  | promSummary v =>
    rw [emitted_promSummary] at he
    simp only [List.mem_cons, List.mem_map] at he
    rcases he with h | h | ⟨q, _, h⟩
    · rw [h]
    · rw [h]
    · rw [← h]
  | promHistgram v =>
    rw [emitted_promHistgram] at he
    simp only [List.mem_cons, List.mem_map] at he
    rcases he with h | h | ⟨b, _, h⟩
    · rw [h]
    · rw [h]
    · rw [← h]

/-! ## Fetching and translating the families -/

/-- Such a loop succeeds when `f` succeeds on every accepted element. -/
theorem foldlM_collect_ok {α β : Type} (p : α → Bool) (f : α → Except Error (List β))
    (body : List β → α → Except Error (List β)) (hbody : Collects p f body)
    (l : List α) (outs : List (List β)) (acc : List β)
    (houts : List.Forall₂ (fun a xs => f a = .ok xs) (l.filter p) outs) :
    l.foldlM body acc = .ok (acc ++ outs.flatten) := by
  induction l generalizing outs acc with
  | nil =>
    cases houts
    simp [pure, Except.pure]
  | cons a t ih =>
    rw [List.foldlM_cons]
    by_cases hp : p a = true
    · rw [List.filter_cons_of_pos hp] at houts
      cases houts with
      | cons hhead htail =>
        rw [hbody.append acc a _ hp hhead]
        show t.foldlM body _ = _
        rw [ih _ _ htail]
        simp
    · rw [List.filter_cons_of_neg hp] at houts
      rw [hbody.skip acc a (by simpa using hp)]
      exact ih _ _ houts

theorem foldlM_collect_error {α β : Type} (p : α → Bool) (f : α → Except Error (List β))
    (body : List β → α → Except Error (List β)) (hbody : Collects p f body)
    (l : List α) (acc : List β)
    (hbad : ∃ a ∈ l, p a = true ∧ ∃ err, f a = .error err) :
    ∃ err, l.foldlM body acc = .error err := by
  induction l generalizing acc with
  | nil =>
    obtain ⟨a, ha, _⟩ := hbad
    cases ha
  | cons a t ih =>
    rw [List.foldlM_cons]
    obtain ⟨b, hb, hpb, err, herr⟩ := hbad
    by_cases hp : p a = true
    · cases hfa : f a with
      | error err2 =>
        rw [hbody.fail acc a err2 hp hfa]
        exact ⟨err2, rfl⟩
      | ok xs =>
        have hbt : b ∈ t := by
          rcases List.mem_cons.mp hb with h | h
          · rw [h, hfa] at herr
            cases herr
          · exact h
        rw [hbody.append acc a xs hp hfa]
        exact ih (acc ++ xs) ⟨b, hbt, hpb, err, herr⟩
    · have hbt : b ∈ t := by
        rcases List.mem_cons.mp hb with h | h
        · rw [h] at hpb
          exact absurd hpb hp
        · exact h
      rw [hbody.skip acc a (by simpa using hp)]
      exact ih acc ⟨b, hbt, hpb, err, herr⟩

theorem forall₂_of_all_ok {α β : Type} (f : α → Except Error β) (l : List α)
    (hall : ∀ a ∈ l, ∃ x, f a = .ok x) :
    ∃ outs, List.Forall₂ (fun a x => f a = .ok x) l outs := by
  induction l with
  | nil => exact ⟨[], List.Forall₂.nil⟩
  | cons a t ih =>
    obtain ⟨x, hx⟩ := hall a (List.mem_cons_self _ _)
    obtain ⟨outs, houts⟩ := ih (fun b hb => hall b (List.mem_cons_of_mem _ hb))
    exact ⟨x :: outs, List.Forall₂.cons hx houts⟩

/-- Either `f` fails on some element, or it succeeds on all of them. -/
theorem exists_error_or_all_ok {α β : Type} (f : α → Except Error β) (l : List α) :
    (∃ a ∈ l, ∃ err, f a = .error err) ∨ ∀ a ∈ l, ∃ x, f a = .ok x := by
  by_cases h : ∃ a ∈ l, ∃ err, f a = .error err
  · exact Or.inl h
  · refine Or.inr (fun a ha => ?_)
    cases hfa : f a with
    | error err => exact absurd ⟨a, ha, err, hfa⟩ h
    | ok x => exact ⟨x, rfl⟩

theorem forall₂_ok_eq_map {α β : Type} (f : α → Except Error (List β)) (l : List α)
    (outs : List (List β)) (houts : List.Forall₂ (fun a xs => f a = .ok xs) l outs) :
    outs = l.map (fun a => match f a with
      | .ok xs => xs
      | .error _ => []) := by
  induction houts with
  | nil => rfl
  | cons hhead _ ih => rw [List.map_cons, hhead, ← ih]

theorem FetchTimeSeries_of_fetch {F : Type} [Float64 F] (caseTable : Char → Char) (env : Env F)
    (cfg : Config) (capacity : Nat) (families : FamilyMap F)
    (hfetch : fetchMetricFamilies env cfg.Target = .ok families) :
    FetchTimeSeries caseTable env cfg capacity
      = families.entries.foldlM (fun ret e =>
          if cfg.Filter.MatchString e.1 then
            match toTimeSeries caseTable (env.Now e.1) cfg e.2 with
            | .error err => .error err
            | .ok ts => .ok (ret ++ ts)
          else .ok ret) [] := by
  unfold FetchTimeSeries
  rw [hfetch]

theorem FetchTimeSeries_of_fetch_error {F : Type} [Float64 F] (caseTable : Char → Char)
    (env : Env F) (cfg : Config) (capacity : Nat) (err : Error)
    (hfetch : fetchMetricFamilies env cfg.Target = .error err) :
    FetchTimeSeries caseTable env cfg capacity = .error err := by
  unfold FetchTimeSeries
  rw [hfetch]

theorem FetchTimeSeries_collects {F : Type} [Float64 F] (caseTable : Char → Char)
    (env : Env F) (cfg : Config) :
    Collects (fun e : Sigma fun _ : String => client_model.MetricFamily F =>
        cfg.Filter.MatchString e.1)
      (fun e => toTimeSeries caseTable (env.Now e.1) cfg e.2)
      (fun ret e =>
        if cfg.Filter.MatchString e.1 then
          match toTimeSeries caseTable (env.Now e.1) cfg e.2 with
          | .error err => .error err
          | .ok ts => .ok (ret ++ ts)
        else .ok ret) where
  skip := by
    intro ret e hp
    simp only [hp, Bool.false_eq_true, if_false]
  append := by
    intro ret e xs hp hf
    simp only [hp, if_true, hf]
  fail := by
    intro ret e err hp hf
    simp only [hp, if_true, hf]

/-- When every family with a matching name translates, `FetchTimeSeries`
returns the translations of these families, concatenated in map order. -/
theorem FetchTimeSeries_ok {F : Type} [Float64 F] (caseTable : Char → Char) (env : Env F)
    (cfg : Config) (capacity : Nat) (families : FamilyMap F)
    (hfetch : fetchMetricFamilies env cfg.Target = .ok families)
    (outs : List (List (pb_monitoring.TimeSeries F)))
    (houts : List.Forall₂ (fun e ts => toTimeSeries caseTable (env.Now e.1) cfg e.2 = .ok ts)
      (families.entries.filter (fun e => cfg.Filter.MatchString e.1)) outs) :
    FetchTimeSeries caseTable env cfg capacity = .ok outs.flatten := by
  rw [FetchTimeSeries_of_fetch caseTable env cfg capacity families hfetch]
  have h := foldlM_collect_ok _ _ _ (FetchTimeSeries_collects caseTable env cfg)
    families.entries outs [] houts
  rw [h, List.nil_append]

/-- When some family with a matching name fails to translate, so does
`FetchTimeSeries`. -/
theorem FetchTimeSeries_error {F : Type} [Float64 F] (caseTable : Char → Char) (env : Env F)
    (cfg : Config) (capacity : Nat) (families : FamilyMap F)
    (hfetch : fetchMetricFamilies env cfg.Target = .ok families)
    (hbad : ∃ e ∈ families.entries, cfg.Filter.MatchString e.1 = true
      ∧ ∃ err, toTimeSeries caseTable (env.Now e.1) cfg e.2 = .error err) :
    ∃ err, FetchTimeSeries caseTable env cfg capacity = .error err := by
  rw [FetchTimeSeries_of_fetch caseTable env cfg capacity families hfetch]
  exact foldlM_collect_error _ _ _ (FetchTimeSeries_collects caseTable env cfg)
    families.entries [] hbad

/-- A poll cycle whose fetch or translation fails sends nothing and logs the error. -/
theorem cycle_of_error {F : Type} [Float64 F] (caseTable : Char → Char)
    (client : MetricClient F) (cfg : Config) (env : Env F) (w : WorkerState F) (err : Error)
    (herr : FetchTimeSeries caseTable env cfg chunkSize = .error err) :
    (workerLoop.cycle caseTable client cfg env w).requests = w.requests
    ∧ (workerLoop.cycle caseTable client cfg env w).logged = w.logged ++ [err] := by
  unfold workerLoop.cycle
  rw [herr]
  exact ⟨rfl, rfl⟩

theorem foldlM_kerase {β γ : Type} (body : List γ → (Sigma fun _ : String => β)
    → Except Error (List γ)) (name : String)
    (hskip : ∀ ret e, e.1 = name → body ret e = .ok ret)
    (l : List (Sigma fun _ : String => β)) (acc : List γ) :
    (l.kerase name).foldlM body acc = l.foldlM body acc := by
  induction l generalizing acc with
  | nil => rfl
  | cons e t ih =>
    by_cases he : name = e.1
    · rw [List.kerase_cons_eq he, List.foldlM_cons, hskip acc e he.symm]
      rfl
    · rw [List.kerase_cons_ne he, List.foldlM_cons, List.foldlM_cons]
      cases body acc e with
      | error err => rfl
      | ok ret => exact ih ret

/-- Removing a family from what the parser returns removes it from what
`fetchMetricFamilies` returns. -/
theorem fetchMetricFamilies_erase {F : Type} (env : Env F) (url name : String) :
    fetchMetricFamilies
        { Get := env.Get
          TextToMetricFamilies := fun body =>
            (env.TextToMetricFamilies body).map (fun families => families.erase name)
          Now := env.Now } url
      = (fetchMetricFamilies env url).map (fun families => families.erase name) := by
  unfold fetchMetricFamilies
  cases env.Get url with
  | error err => rfl
  | ok res =>
    by_cases hcode : res.StatusCode < 200 ∨ res.StatusCode ≥ 300
    · simp only [hcode, if_true]
      rfl
    · simp only [hcode, if_false]

/-! ## Reading the configuration -/

theorem foldlM_each_ok {α β : Type} (g : α → Except Error β)
    (body : List β → α → Except Error (List β))
    (hok : ∀ ret a c, g a = .ok c → body ret a = .ok (ret ++ [c]))
    (l : List α) (out acc : List β) (hout : List.Forall₂ (fun a c => g a = .ok c) l out) :
    l.foldlM body acc = .ok (acc ++ out) := by
  induction hout generalizing acc with
  | nil => simp [pure, Except.pure]
  | cons hhead _ ih =>
    rw [List.foldlM_cons, hok acc _ _ hhead]
    show List.foldlM body _ _ = _
    rw [ih]
    simp

theorem foldlM_each_error {α β : Type} (g : α → Except Error β)
    (body : List β → α → Except Error (List β))
    (hok : ∀ ret a c, g a = .ok c → body ret a = .ok (ret ++ [c]))
    (herr : ∀ ret a err, g a = .error err → body ret a = .error err)
    (l : List α) (acc : List β) (hbad : ∃ a ∈ l, ∃ err, g a = .error err) :
    ∃ err, l.foldlM body acc = .error err := by
  induction l generalizing acc with
  | nil =>
    obtain ⟨a, ha, _⟩ := hbad
    cases ha
  | cons a t ih =>
    rw [List.foldlM_cons]
    cases hga : g a with
    | error err2 =>
      rw [herr acc a err2 hga]
      exact ⟨err2, rfl⟩
    | ok c =>
      obtain ⟨b, hb, err, hgb⟩ := hbad
      have hbt : b ∈ t := by
        rcases List.mem_cons.mp hb with h | h
        · rw [h, hga] at hgb
          cases hgb
        · exact h
      rw [hok acc a c hga]
      exact ih (acc ++ [c]) ⟨b, hbt, err, hgb⟩

/-- After the file is read and decoded, `ReadConfig` is its loop over the
descriptors, and an iteration appends the Config of the descriptor or ends
the loop with its error. -/
theorem ReadConfig_of_decoded (lib : ConfigLib) (path bytes : String) (cfgs : List ConfigExpr)
    (hread : lib.ReadFile path = .ok bytes) (hdecode : lib.Unmarshal bytes = .ok cfgs) :
    ∃ body : List Config → ConfigExpr → Except Error (List Config),
      ReadConfig lib path = cfgs.foldlM body []
      ∧ (∀ ret d c, ReadConfig.entry lib d = .ok c → body ret d = .ok (ret ++ [c]))
      ∧ ∀ ret d err, ReadConfig.entry lib d = .error err → body ret d = .error err := by
  refine ⟨fun ret cfg => do
    let duration ← lib.ParseDuration cfg.Interval
    let project := (cfg.Resource.Labels.lookup "project_id").getD ""
    let filterStr := cfg.Metric.Filter
    let filterStr := if filterStr = "" then "^.+$" else filterStr
    let filter ← lib.Compile filterStr
    let cfg : Config :=
      { Target := cfg.Target
        Resource := cfg.Resource
        Metric := cfg.Metric
        Prefix := []
        Interval := duration
        Project := project
        Filter := filter }
    .ok (ret ++ [cfg]), ?_, ?_, ?_⟩
  · unfold ReadConfig
    simp only [hread, hdecode, bind, Except.bind]
  · intro ret d c hc
    unfold ReadConfig.entry at hc
    cases hp : lib.ParseDuration d.Interval with
    | error err =>
      rw [hp] at hc
      cases hc
    | ok duration =>
      rw [hp] at hc
      cases hf : lib.Compile (if d.Metric.Filter = "" then "^.+$" else d.Metric.Filter) with
      | error err =>
        simp only [bind, Except.bind, hf] at hc
        cases hc
      | ok filter =>
        simp only [bind, Except.bind, hf] at hc
        injection hc with hc
        simp only [bind, Except.bind, hp, hf, hc]
  · intro ret d err herr
    unfold ReadConfig.entry at herr
    cases hp : lib.ParseDuration d.Interval with
    | error err2 =>
      rw [hp] at herr
      simp only [bind, Except.bind] at herr
      simp only [bind, Except.bind, hp]
      injection herr with herr
      rw [herr]
    | ok duration =>
      rw [hp] at herr
      cases hf : lib.Compile (if d.Metric.Filter = "" then "^.+$" else d.Metric.Filter) with
      | error err2 =>
        simp only [bind, Except.bind, hf] at herr
        simp only [bind, Except.bind, hp, hf]
        injection herr with herr
        rw [herr]
      | ok filter =>
        simp only [bind, Except.bind, hf] at herr
        cases herr

theorem ReadConfig_ok (lib : ConfigLib) (path bytes : String) (cfgs : List ConfigExpr)
    (hread : lib.ReadFile path = .ok bytes) (hdecode : lib.Unmarshal bytes = .ok cfgs)
    (out : List Config)
    (hout : List.Forall₂ (fun d c => ReadConfig.entry lib d = .ok c) cfgs out) :
    ReadConfig lib path = .ok out := by
  obtain ⟨body, hloop, hok, _⟩ := ReadConfig_of_decoded lib path bytes cfgs hread hdecode
  rw [hloop, foldlM_each_ok _ body hok cfgs out [] hout, List.nil_append]

theorem ReadConfig_error (lib : ConfigLib) (path bytes : String) (cfgs : List ConfigExpr)
    (hread : lib.ReadFile path = .ok bytes) (hdecode : lib.Unmarshal bytes = .ok cfgs)
    (hbad : ∃ d ∈ cfgs, ∃ err, ReadConfig.entry lib d = .error err) :
    ∃ err, ReadConfig lib path = .error err := by
  obtain ⟨body, hloop, hok, herr⟩ := ReadConfig_of_decoded lib path bytes cfgs hread hdecode
  rw [hloop]
  exact foldlM_each_error _ body hok herr cfgs [] hbad

/-- A successful `ReadConfig` returns the Configs of the descriptors, one for
each and in their order. -/
theorem ReadConfig_entries (lib : ConfigLib) (path bytes : String) (cfgs : List ConfigExpr)
    (hread : lib.ReadFile path = .ok bytes) (hdecode : lib.Unmarshal bytes = .ok cfgs)
    (out : List Config) (hout : ReadConfig lib path = .ok out) :
    List.Forall₂ (fun d c => ReadConfig.entry lib d = .ok c) cfgs out := by
  rcases exists_error_or_all_ok (ReadConfig.entry lib) cfgs with hbad | hall
  · obtain ⟨err, herr⟩ := ReadConfig_error lib path bytes cfgs hread hdecode hbad
    rw [herr] at hout
    cases hout
  · obtain ⟨out2, hout2⟩ := forall₂_of_all_ok _ _ hall
    rw [ReadConfig_ok lib path bytes cfgs hread hdecode out2 hout2] at hout
    injection hout with hout
    rw [← hout]
    exact hout2

/-- The fields of the Config built from a descriptor. -/
theorem entry_fields (lib : ConfigLib) (d : ConfigExpr) (c : Config)
    (hc : ReadConfig.entry lib d = .ok c) :
    c.Target = d.Target ∧ c.Resource = d.Resource ∧ c.Metric = d.Metric
    ∧ c.Project = (d.Resource.Labels.lookup "project_id").getD ""
    ∧ lib.ParseDuration d.Interval = .ok c.Interval
    ∧ lib.Compile (if d.Metric.Filter = "" then "^.+$" else d.Metric.Filter) = .ok c.Filter := by
  unfold ReadConfig.entry at hc
  cases hp : lib.ParseDuration d.Interval with
  | error err =>
    rw [hp] at hc
    cases hc
  | ok duration =>
    rw [hp] at hc
    cases hf : lib.Compile (if d.Metric.Filter = "" then "^.+$" else d.Metric.Filter) with
    | error err =>
      simp only [bind, Except.bind, hf] at hc
      cases hc
    | ok filter =>
      simp only [bind, Except.bind, hf] at hc
      injection hc with hc
      subst hc
      exact ⟨rfl, rfl, rfl, rfl, rfl, rfl⟩

/-- A descriptor gives no Config exactly when its interval does not parse or
its filter, the default pattern when it is empty, does not compile. -/
theorem entry_error_iff (lib : ConfigLib) (d : ConfigExpr) :
    (∃ err, ReadConfig.entry lib d = .error err)
      ↔ (∃ err, lib.ParseDuration d.Interval = .error err)
        ∨ ∃ err, lib.Compile (if d.Metric.Filter = "" then "^.+$" else d.Metric.Filter)
            = .error err := by
  unfold ReadConfig.entry
  cases hp : lib.ParseDuration d.Interval with
  | error err =>
    simp [bind, Except.bind]
  | ok duration =>
    cases hf : lib.Compile (if d.Metric.Filter = "" then "^.+$" else d.Metric.Filter) with
    | error err => simp [bind, Except.bind, hf]
    | ok filter => simp [bind, Except.bind, hf]

/-! ## The scheduling loop -/

theorem NewTicker_pos (d : Int) (hpos : 0 < d) : NewTicker d = some d := by
  unfold NewTicker
  rw [if_neg (by omega)]

/-- The loop takes no notice of cancellation: the iteration that receives from
`ctx.Done()` changes nothing, and the iterations after it run as before. -/
theorem workerLoop_done {F : Type} [Float64 F] (caseTable : Char → Char)
    (client : MetricClient F) (cfg : Config) (before after : List (Event F)) :
    workerLoop caseTable client cfg (before ++ Event.Done :: after)
      = workerLoop caseTable client cfg (before ++ after) := by
  unfold workerLoop
  cases NewTicker cfg.Interval with
  | none => rfl
  | some ticker =>
    simp only []
    rw [List.foldl_append, List.foldl_append, List.foldl_cons]
    rfl

theorem workerLoop_tick {F : Type} [Float64 F] (caseTable : Char → Char)
    (client : MetricClient F) (cfg : Config) (hpos : 0 < cfg.Interval)
    (before : List (Event F)) (env : Env F) :
    workerLoop caseTable client cfg (before ++ [Event.Tick env])
      = { worker := workerLoop.cycle caseTable client cfg env
            (workerLoop caseTable client cfg before).worker
          cycles := (workerLoop caseTable client cfg before).cycles + 1
          panicked := (workerLoop caseTable client cfg before).panicked } := by
  unfold workerLoop
  rw [NewTicker_pos _ hpos]
  simp only []
  rw [List.foldl_append]
  rfl

/-- A worker whose interval is not positive panics before its first poll cycle. -/
theorem workerLoop_panics {F : Type} [Float64 F] (caseTable : Char → Char)
    (client : MetricClient F) (cfg : Config) (hneg : cfg.Interval ≤ 0)
    (events : List (Event F)) :
    (workerLoop caseTable client cfg events).panicked = true
    ∧ (workerLoop caseTable client cfg events).cycles = 0 := by
  unfold workerLoop NewTicker
  rw [if_pos hneg]
  exact ⟨rfl, rfl⟩

/-! ## The labels of an instance -/

theorem lookup_foldl_pairs (pairs : List client_model.LabelPair) (acc : StrMap) (k : String) :
    AList.lookup k (pairs.foldl (fun ret pair => ret.insert pair.GetName pair.GetValue) acc)
      = ((pairs.reverse.find? (fun pair => pair.GetName == k)).map
          (fun pair => pair.GetValue)).or (AList.lookup k acc) := by
  induction pairs generalizing acc with
  | nil => simp
  | cons p t ih =>
    rw [List.foldl_cons, ih, List.reverse_cons, List.find?_append]
    cases hfind : List.find? (fun pair => pair.GetName == k) t.reverse with
    | some q => simp
    | none =>
      by_cases hk : p.GetName = k
      · subst hk
        simp [AList.lookup_insert]
      · have hk2 : k ≠ p.GetName := fun h => hk h.symm
        simp [hk, AList.lookup_insert_ne hk2]

/-- Reading a key in the map `labelPairsToMap` builds gives the value of the
last pair of that name, and nothing when no pair has that name. -/
theorem lookup_labelPairsToMap (pairs : List client_model.LabelPair) (k : String) :
    AList.lookup k (labelPairsToMap pairs)
      = (pairs.reverse.find? (fun pair => pair.GetName == k)).map
          (fun pair => pair.GetValue) := by
  unfold labelPairsToMap
  rw [lookup_foldl_pairs, AList.lookup_empty, Option.or_none]

/-- The keys of the map `labelPairsToMap` builds are the names of the pairs. -/
theorem mem_labelPairsToMap (pairs : List client_model.LabelPair) (k : String) :
    k ∈ labelPairsToMap pairs ↔ ∃ pair ∈ pairs, pair.GetName = k := by
  rw [← AList.lookup_isSome, lookup_labelPairsToMap]
  have hmap : ∀ o : Option client_model.LabelPair,
      (o.map (fun pair => pair.GetValue)).isSome = o.isSome := by
    intro o
    cases o <;> rfl
  rw [hmap, List.find?_isSome]
  constructor
  · rintro ⟨pair, hmem, hname⟩
    exact ⟨pair, List.mem_reverse.mp hmem, by simpa using hname⟩
  · rintro ⟨pair, hmem, hname⟩
    exact ⟨pair, List.mem_reverse.mpr hmem, by simpa using hname⟩

/-! ## The default filter -/

theorem plusLoop_anyCharNotNL_end (s : List Char) :
    plusLoop .anyCharNotNL (matchHere [.endText] false) s = true ↔ s ≠ [] ∧ '\n' ∉ s := by
  induction s with
  | nil => simp [plusLoop]
  | cons c cs ih =>
    cases cs with
    | nil =>
      simp [plusLoop, matchHere, RegexAtom.accepts]
      exact ⟨fun h e => h e.symm, fun h e => h e.symm⟩
    | cons c1 cs1 =>
      have hk : matchHere [.endText] false (c1 :: cs1) = false := by simp [matchHere]
      rw [plusLoop, hk, Bool.false_or, Bool.and_eq_true, ih]
      simp only [RegexAtom.accepts, bne_iff_ne, ne_eq, List.mem_cons, not_or, not_false_eq_true,
        reduceCtorEq, true_and]
      constructor
      · rintro ⟨h, h1, h2⟩
        exact ⟨fun e => h e.symm, h1, h2⟩
      · rintro ⟨h, h1, h2⟩
        exact ⟨fun e => h e.symm, h1, h2⟩

theorem searchFrom_beginText_later (items : List RegexItem) (s : List Char) :
    searchFrom (.beginText :: items) false s = false := by
  induction s with
  | nil => simp [searchFrom, matchHere]
  | cons c cs ih => simp [searchFrom, matchHere, ih]

/-- The regexp of `^.+$` matches the texts that are not empty and hold no
newline, and no other text. -/
theorem defaultRegexp_matches (name : String) :
    defaultRegexp.MatchString name = true ↔ name ≠ "" ∧ '\n' ∉ name.data := by
  have hne : name ≠ "" ↔ name.data ≠ [] := by
    constructor
    · intro h hd
      apply h
      cases name
      simp only at hd
      rw [hd]
    · intro h hd
      apply h
      rw [hd]
  rw [hne, ← plusLoop_anyCharNotNL_end]
  show searchFrom _ true name.data = true ↔ _
  cases hdata : name.data with
  | nil => simp [searchFrom, matchHere, plusLoop]
  | cons c cs =>
    rw [searchFrom, searchFrom_beginText_later, Bool.or_false, matchHere, Bool.true_and,
      matchHere]

/-- The matcher of the fragment on some patterns and texts. -/
theorem compileFragment_examples :
    compileFragment "^.+$" = .ok defaultRegexp
    ∧ ["", "up", "a\nb", "\n", "http_requests_total"].map defaultRegexp.MatchString
        = [false, true, false, false, true]
    ∧ ["abc", "xabcx", "ab", "abbbc", ""].map
          (fun s => (compileFragment "ab+c").map (fun re => re.MatchString s))
        = [.ok true, .ok true, .ok false, .ok true, .ok false]
    ∧ ["abc", "xabcx", "ab", "", "bab"].map
          (fun s => (compileFragment "^ab*$").map (fun re => re.MatchString s))
        = [.ok false, .ok false, .ok true, .ok false, .ok false]
    ∧ (compileFragment "a|b").map (fun re => re.MatchString "a")
        = .error (.External "regexp: pattern outside the fragment") :=
  ⟨rfl, rfl, rfl, rfl, rfl⟩

theorem foldlM_congr_mem {α β : Type} (body1 body2 : β → α → Except Error β) (l : List α)
    (h : ∀ a ∈ l, ∀ ret, body1 ret a = body2 ret a) (acc : β) :
    l.foldlM body1 acc = l.foldlM body2 acc := by
  induction l generalizing acc with
  | nil => rfl
  | cons a l ih =>
    rw [List.foldlM_cons, List.foldlM_cons, h a (List.mem_cons_self a l) acc]
    cases body2 acc a with
    | error err => rfl
    | ok ret =>
      exact ih (fun b hb => h b (List.mem_cons_of_mem a hb)) ret

/-- When the filter matches the name of every fetched family, the cycle
collects what it collects with a filter that matches every text. -/
theorem FetchTimeSeries_match_all {F : Type} [Float64 F] (caseTable : Char → Char)
    (env : Env F) (cfg : Config) (capacity : Nat) (families : FamilyMap F)
    (hfetch : fetchMetricFamilies env cfg.Target = .ok families)
    (hall : ∀ e ∈ families.entries, cfg.Filter.MatchString e.1 = true) :
    FetchTimeSeries caseTable env cfg capacity
      = FetchTimeSeries caseTable env
          { cfg with Filter := { MatchString := fun _ => true } } capacity := by
  rw [FetchTimeSeries_of_fetch caseTable env cfg capacity families hfetch,
    FetchTimeSeries_of_fetch caseTable env
      { cfg with Filter := { MatchString := fun _ => true } } capacity families hfetch]
  apply foldlM_congr_mem
  intro e he ret
  simp only [hall e he, if_true]
  rfl

/-! ## The claims -/

/-- C1: for a family of type GAUGE, COUNTER or UNTYPED, `toTimeSeries` succeeds
with exactly one series per instance, in instance order; the series of
an instance has a single point whose value is the scalar of the instance (the
value of its gauge, counter or untyped payload, by the family type), and
its labels are the label pairs of the instance merged with the static labels
of the target: a key has the static value when the static labels have it,
else the value of the last label pair of the instance with that name, and
the keys are the names of the label pairs and the static keys, no others. -/
theorem toTimeSeries_scalar_family {F : Type} [Float64 F] (caseTable : Char → Char) (now : Int)
    (cfg : Config) (family : client_model.MetricFamily F)
    (htype : family.GetType = client_model.MetricType_GAUGE
      ∨ family.GetType = client_model.MetricType_COUNTER
      ∨ family.GetType = client_model.MetricType_UNTYPED) :
    ∃ out, toTimeSeries caseTable now cfg family = .ok out
      ∧ out.length = family.GetMetric.length
      ∧ List.Forall₂ (fun metric ts =>
          (∃ v, ts.Points = [{ Interval := timeIntervalEnd now, Value := .DoubleValue v }]
            ∧ (family.GetType = client_model.MetricType_GAUGE → v = metric.GetGauge.GetValue)
            ∧ (family.GetType = client_model.MetricType_COUNTER → v = metric.GetCounter.GetValue)
            ∧ (family.GetType = client_model.MetricType_UNTYPED → v = metric.GetUntyped.GetValue))
          ∧ (∀ k, AList.lookup k ts.Metric.Labels
              = (AList.lookup k cfg.Metric.Labels).or
                  ((metric.GetLabel.reverse.find? (fun pair => pair.GetName == k)).map
                    (fun pair => pair.GetValue)))
          ∧ ∀ k, k ∈ ts.Metric.Labels
              ↔ (∃ pair ∈ metric.GetLabel, pair.GetName = k) ∨ k ∈ cfg.Metric.Labels)
        family.GetMetric out := by
  obtain ⟨sel, hsel, hval⟩ : ∃ sel : client_model.Metric F → F,
      (∀ metric, newPromMetricValues family.GetType metric = .ok (.promGauge (sel metric)))
      ∧ ∀ metric,
        (family.GetType = client_model.MetricType_GAUGE → sel metric = metric.GetGauge.GetValue)
        ∧ (family.GetType = client_model.MetricType_COUNTER
            → sel metric = metric.GetCounter.GetValue)
        ∧ (family.GetType = client_model.MetricType_UNTYPED
            → sel metric = metric.GetUntyped.GetValue) := by
    rcases htype with h | h | h
    · exact ⟨fun metric => metric.GetGauge.GetValue, by
        intro metric
        simp [newPromMetricValues, h, client_model.MetricType_GAUGE,
          client_model.MetricType_SUMMARY, client_model.MetricType_HISTOGRAM,
          client_model.MetricType_UNTYPED, client_model.MetricType_COUNTER], by
        intro metric
        simp [h, client_model.MetricType_GAUGE, client_model.MetricType_UNTYPED,
          client_model.MetricType_COUNTER]⟩
    · exact ⟨fun metric => metric.GetCounter.GetValue, by
        intro metric
        simp [newPromMetricValues, h, client_model.MetricType_GAUGE,
          client_model.MetricType_SUMMARY, client_model.MetricType_HISTOGRAM,
          client_model.MetricType_UNTYPED, client_model.MetricType_COUNTER], by
        intro metric
        simp [h, client_model.MetricType_GAUGE, client_model.MetricType_UNTYPED,
          client_model.MetricType_COUNTER]⟩
    · exact ⟨fun metric => metric.GetUntyped.GetValue, by
        intro metric
        simp [newPromMetricValues, h, client_model.MetricType_GAUGE,
          client_model.MetricType_SUMMARY, client_model.MetricType_HISTOGRAM,
          client_model.MetricType_UNTYPED, client_model.MetricType_COUNTER], by
        intro metric
        simp [h, client_model.MetricType_GAUGE, client_model.MetricType_UNTYPED,
          client_model.MetricType_COUNTER]⟩
  refine ⟨_, toTimeSeries_ok caseTable now cfg family _ hsel, ?_, ?_⟩
  · simp only [seriesOfInstance, emitted_promGauge, List.map_cons, List.map_nil]
    rw [flatMap_singleton_eq_map]
    simp
  · simp only [seriesOfInstance, emitted_promGauge, List.map_cons, List.map_nil]
    rw [flatMap_singleton_eq_map]
    apply forall₂_map_of_forall
    intro metric
    refine ⟨⟨sel metric, rfl, hval metric⟩, ?_, ?_⟩
    · intro k
      simp only [toTimeSeries.series, lookup_mergeMaps3, AList.lookup_empty, Option.none_or,
        lookup_labelPairsToMap]
    · intro k
      simp only [toTimeSeries.series, mem_mergeMaps3, mem_labelPairsToMap,
        AList.not_mem_empty, false_or]

/-- The counter scenario: `http_requests_total{method="GET"} 42` of type COUNTER
gives one series with the label `method=GET` and the value 42. -/
theorem toTimeSeries_scalar_family_witness :
    (exampleCounter.GetType = client_model.MetricType_GAUGE
      ∨ exampleCounter.GetType = client_model.MetricType_COUNTER
      ∨ exampleCounter.GetType = client_model.MetricType_UNTYPED)
    ∧ toTimeSeries id 0 exampleConfig exampleCounter = .ok [exampleCounterSeries]
    ∧ AList.lookup "method" exampleCounterSeries.Metric.Labels = some "GET"
    ∧ ∃ out, toTimeSeries id 0 exampleConfig exampleCounter = .ok out
      ∧ out.length = exampleCounter.GetMetric.length
      ∧ List.Forall₂ (fun metric ts =>
          (∃ v, ts.Points = [{ Interval := timeIntervalEnd 0, Value := .DoubleValue v }]
            ∧ (exampleCounter.GetType = client_model.MetricType_GAUGE
                → v = metric.GetGauge.GetValue)
            ∧ (exampleCounter.GetType = client_model.MetricType_COUNTER
                → v = metric.GetCounter.GetValue)
            ∧ (exampleCounter.GetType = client_model.MetricType_UNTYPED
                → v = metric.GetUntyped.GetValue))
          ∧ (∀ k, AList.lookup k ts.Metric.Labels
              = (AList.lookup k exampleConfig.Metric.Labels).or
                  ((metric.GetLabel.reverse.find? (fun pair => pair.GetName == k)).map
                    (fun pair => pair.GetValue)))
          ∧ ∀ k, k ∈ ts.Metric.Labels
              ↔ (∃ pair ∈ metric.GetLabel, pair.GetName = k)
                ∨ k ∈ exampleConfig.Metric.Labels)
        exampleCounter.GetMetric out :=
  ⟨Or.inr (Or.inl rfl), rfl, rfl,
    toTimeSeries_scalar_family id 0 exampleConfig exampleCounter (Or.inr (Or.inl rfl))⟩

/-- C2: for a SUMMARY family and static labels that set neither `mode` nor
`quantile`, `toTimeSeries` succeeds with the concatenation of one block of
series per instance, in instance order; the block of an instance with N
quantiles has N+2 series: first one with label `mode=sum` and the sample sum
as value, then one with `mode=count` and the sample count converted to a
float, then for each quantile, in order, one with `mode=quantile`,
`quantile=` the formatted quantile, and the value of the quantile. -/
theorem toTimeSeries_summary {F : Type} [Float64 F] (caseTable : Char → Char) (now : Int)
    (cfg : Config) (family : client_model.MetricFamily F)
    (htype : family.GetType = client_model.MetricType_SUMMARY)
    (hmode : AList.lookup "mode" cfg.Metric.Labels = none)
    (hquantile : AList.lookup "quantile" cfg.Metric.Labels = none) :
    ∃ blocks : List (List (pb_monitoring.TimeSeries F)),
      toTimeSeries caseTable now cfg family = .ok blocks.flatten
      ∧ List.Forall₂ (fun metric block =>
          block.length = metric.GetSummary.GetQuantile.length + 2
          ∧ ∃ sum count quantiles, block = sum :: count :: quantiles
            ∧ AList.lookup "mode" sum.Metric.Labels = some "sum"
            ∧ sum.Points =
                [{ Interval := timeIntervalEnd now, Value := .DoubleValue (metric.GetSummary.GetSampleSum) }]
            ∧ AList.lookup "mode" count.Metric.Labels = some "count"
            ∧ count.Points =
                [{ Interval := timeIntervalEnd now, Value := .DoubleValue (Float64.ofUint64 metric.GetSummary.GetSampleCount) }]
            ∧ List.Forall₂ (fun quantile ts =>
                AList.lookup "mode" ts.Metric.Labels = some "quantile"
                ∧ AList.lookup "quantile" ts.Metric.Labels
                    = some (Float64.sprintV quantile.GetQuantile)
                ∧ ts.Points =
                [{ Interval := timeIntervalEnd now, Value := .DoubleValue quantile.GetValue }])
              metric.GetSummary.GetQuantile quantiles)
        family.GetMetric blocks := by
  have hpv : ∀ metric : client_model.Metric F,
      newPromMetricValues family.GetType metric = .ok (.promSummary metric.GetSummary) := by
    intro metric
    simp [newPromMetricValues, htype]
  refine ⟨family.GetMetric.map (fun metric =>
    seriesOfInstance caseTable now cfg family metric (.promSummary metric.GetSummary)),
    toTimeSeries_ok caseTable now cfg family _ hpv, ?_⟩
  apply forall₂_map_of_forall
  intro metric
  have hmq : ("mode" : String) ≠ "quantile" := by decide
  simp only [seriesOfInstance, emitted_promSummary, List.map_cons, List.map_map]
  refine ⟨by simp, _, _, _, rfl, ?_, rfl, ?_, rfl, ?_⟩
  · simp only [toTimeSeries.series, lookup_mergeMaps3, hmode, AList.lookup_insert,
      Option.none_or, Option.or_some]
  · simp only [toTimeSeries.series, lookup_mergeMaps3, hmode, AList.lookup_insert,
      Option.none_or, Option.or_some]
  · apply forall₂_map_of_forall
    intro quantile
    refine ⟨?_, ?_, rfl⟩
    · simp only [Function.comp_apply, toTimeSeries.series, lookup_mergeMaps3, hmode,
        AList.lookup_insert, AList.lookup_insert_ne hmq, Option.none_or, Option.or_some]
    · simp only [Function.comp_apply, toTimeSeries.series, lookup_mergeMaps3, hquantile,
        AList.lookup_insert, Option.none_or, Option.or_some]

/-- The summary example: no static labels, and the conclusion of C2 for it. -/
theorem toTimeSeries_summary_witness :
    exampleSummary.GetType = client_model.MetricType_SUMMARY
    ∧ AList.lookup "mode" exampleConfig.Metric.Labels = none
    ∧ AList.lookup "quantile" exampleConfig.Metric.Labels = none
    ∧ ∃ blocks : List (List (pb_monitoring.TimeSeries Int)),
      toTimeSeries id 0 exampleConfig exampleSummary = .ok blocks.flatten
      ∧ List.Forall₂ (fun metric block =>
          block.length = metric.GetSummary.GetQuantile.length + 2
          ∧ ∃ sum count quantiles, block = sum :: count :: quantiles
            ∧ AList.lookup "mode" sum.Metric.Labels = some "sum"
            ∧ sum.Points =
                [{ Interval := timeIntervalEnd 0, Value := .DoubleValue (metric.GetSummary.GetSampleSum) }]
            ∧ AList.lookup "mode" count.Metric.Labels = some "count"
            ∧ count.Points =
                [{ Interval := timeIntervalEnd 0, Value := .DoubleValue (Float64.ofUint64 metric.GetSummary.GetSampleCount) }]
            ∧ List.Forall₂ (fun quantile ts =>
                AList.lookup "mode" ts.Metric.Labels = some "quantile"
                ∧ AList.lookup "quantile" ts.Metric.Labels
                    = some (Float64.sprintV quantile.GetQuantile)
                ∧ ts.Points =
                [{ Interval := timeIntervalEnd 0, Value := .DoubleValue quantile.GetValue }])
              metric.GetSummary.GetQuantile quantiles)
        exampleSummary.GetMetric blocks :=
  ⟨rfl, rfl, rfl, toTimeSeries_summary id 0 exampleConfig exampleSummary rfl rfl rfl⟩

/-- C3: for a HISTOGRAM family and static labels that set neither `mode` nor
`le`, `toTimeSeries` succeeds with the concatenation of one block of series
per instance, in instance order; the block of an instance with M buckets has
M+2 series: first one with label `mode=sum` and the sample sum as value, then
one with `mode=count` and the sample count converted to a float, then for
each bucket, in order, one with `mode=bucket`, `le=` the formatted upper
bound, and the cumulative count of the bucket converted to a float. -/
theorem toTimeSeries_histogram {F : Type} [Float64 F] (caseTable : Char → Char) (now : Int)
    (cfg : Config) (family : client_model.MetricFamily F)
    (htype : family.GetType = client_model.MetricType_HISTOGRAM)
    (hmode : AList.lookup "mode" cfg.Metric.Labels = none)
    (hle : AList.lookup "le" cfg.Metric.Labels = none) :
    ∃ blocks : List (List (pb_monitoring.TimeSeries F)),
      toTimeSeries caseTable now cfg family = .ok blocks.flatten
      ∧ List.Forall₂ (fun metric block =>
          block.length = metric.GetHistogram.GetBucket.length + 2
          ∧ ∃ sum count buckets, block = sum :: count :: buckets
            ∧ AList.lookup "mode" sum.Metric.Labels = some "sum"
            ∧ sum.Points =
                [{ Interval := timeIntervalEnd now, Value := .DoubleValue (metric.GetHistogram.GetSampleSum) }]
            ∧ AList.lookup "mode" count.Metric.Labels = some "count"
            ∧ count.Points =
                [{ Interval := timeIntervalEnd now, Value := .DoubleValue (Float64.ofUint64 metric.GetHistogram.GetSampleCount) }]
            ∧ List.Forall₂ (fun bucket ts =>
                AList.lookup "mode" ts.Metric.Labels = some "bucket"
                ∧ AList.lookup "le" ts.Metric.Labels
                    = some (Float64.sprintV bucket.GetUpperBound)
                ∧ ts.Points =
                [{ Interval := timeIntervalEnd now, Value := .DoubleValue (Float64.ofUint64 bucket.GetCumulativeCount) }])
              metric.GetHistogram.GetBucket buckets)
        family.GetMetric blocks := by
  have hpv : ∀ metric : client_model.Metric F,
      newPromMetricValues family.GetType metric = .ok (.promHistgram metric.GetHistogram) := by
    intro metric
    simp [newPromMetricValues, htype, client_model.MetricType_HISTOGRAM,
      client_model.MetricType_SUMMARY]
  refine ⟨family.GetMetric.map (fun metric =>
    seriesOfInstance caseTable now cfg family metric (.promHistgram metric.GetHistogram)),
    toTimeSeries_ok caseTable now cfg family _ hpv, ?_⟩
  apply forall₂_map_of_forall
  intro metric
  have hml : ("mode" : String) ≠ "le" := by decide
  simp only [seriesOfInstance, emitted_promHistgram, List.map_cons, List.map_map]
  refine ⟨by simp, _, _, _, rfl, ?_, rfl, ?_, rfl, ?_⟩
  · simp only [toTimeSeries.series, lookup_mergeMaps3, hmode, AList.lookup_insert,
      Option.none_or, Option.or_some]
  · simp only [toTimeSeries.series, lookup_mergeMaps3, hmode, AList.lookup_insert,
      Option.none_or, Option.or_some]
  · apply forall₂_map_of_forall
    intro bucket
    refine ⟨?_, ?_, rfl⟩
    · simp only [Function.comp_apply, toTimeSeries.series, lookup_mergeMaps3, hmode,
        AList.lookup_insert, AList.lookup_insert_ne hml, Option.none_or, Option.or_some]
    · simp only [Function.comp_apply, toTimeSeries.series, lookup_mergeMaps3, hle,
        AList.lookup_insert, Option.none_or, Option.or_some]

/-- The histogram example: no static labels, and the conclusion of C3 for it. -/
theorem toTimeSeries_histogram_witness :
    exampleHistogram.GetType = client_model.MetricType_HISTOGRAM
    ∧ AList.lookup "mode" exampleConfig.Metric.Labels = none
    ∧ AList.lookup "le" exampleConfig.Metric.Labels = none
    ∧ ∃ blocks : List (List (pb_monitoring.TimeSeries Int)),
      toTimeSeries id 0 exampleConfig exampleHistogram = .ok blocks.flatten
      ∧ List.Forall₂ (fun metric block =>
          block.length = metric.GetHistogram.GetBucket.length + 2
          ∧ ∃ sum count buckets, block = sum :: count :: buckets
            ∧ AList.lookup "mode" sum.Metric.Labels = some "sum"
            ∧ sum.Points =
                [{ Interval := timeIntervalEnd 0, Value := .DoubleValue (metric.GetHistogram.GetSampleSum) }]
            ∧ AList.lookup "mode" count.Metric.Labels = some "count"
            ∧ count.Points =
                [{ Interval := timeIntervalEnd 0, Value := .DoubleValue (Float64.ofUint64 metric.GetHistogram.GetSampleCount) }]
            ∧ List.Forall₂ (fun bucket ts =>
                AList.lookup "mode" ts.Metric.Labels = some "bucket"
                ∧ AList.lookup "le" ts.Metric.Labels
                    = some (Float64.sprintV bucket.GetUpperBound)
                ∧ ts.Points =
                [{ Interval := timeIntervalEnd 0, Value := .DoubleValue (Float64.ofUint64 bucket.GetCumulativeCount) }])
              metric.GetHistogram.GetBucket buckets)
        exampleHistogram.GetMetric blocks :=
  ⟨rfl, rfl, rfl, toTimeSeries_histogram id 0 exampleConfig exampleHistogram rfl rfl rfl⟩

/-- C4: every series of a successful `toTimeSeries` comes from one instance of
the family and one call of the callback by `each` on that instance, and its
label map is `mergeMaps` of the labels of the instance, the labels of that
call (`mode`, `quantile`, `le`) and the static labels: a key has the static
value when the static labels have it, else the value of the call when the
call has it, else the value of the last label pair of the instance with that
name; the keys are the names of the label pairs of the instance, the keys of
the call and the static keys, no others. So for the key `mode` a static
value overrides the other two, and without one the mode of the call
overrides the label of the instance. -/
theorem toTimeSeries_labels {F : Type} [Float64 F] (caseTable : Char → Char) (now : Int)
    (cfg : Config) (family : client_model.MetricFamily F)
    (out : List (pb_monitoring.TimeSeries F))
    (hout : toTimeSeries caseTable now cfg family = .ok out) :
    ∀ ts ∈ out, ∃ metric ∈ family.GetMetric, ∃ pv,
      newPromMetricValues family.GetType metric = .ok pv
      ∧ ∃ e ∈ emitted pv,
        ts.Metric.Labels = mergeMaps [labelPairsToMap metric.GetLabel, e.2.2, cfg.Metric.Labels]
        ∧ (∀ k, AList.lookup k ts.Metric.Labels
            = (AList.lookup k cfg.Metric.Labels).or
                ((AList.lookup k e.2.2).or
                  ((metric.GetLabel.reverse.find? (fun pair => pair.GetName == k)).map
                    (fun pair => pair.GetValue))))
        ∧ (∀ k, k ∈ ts.Metric.Labels
            ↔ (∃ pair ∈ metric.GetLabel, pair.GetName = k) ∨ k ∈ e.2.2
              ∨ k ∈ cfg.Metric.Labels)
        ∧ (∀ k, AList.lookup k ts.Metric.Labels
            = (AList.lookup k cfg.Metric.Labels).or
                ((AList.lookup k e.2.2).or (AList.lookup k (labelPairsToMap metric.GetLabel))))
        ∧ (∀ k, k ∈ ts.Metric.Labels
            ↔ k ∈ labelPairsToMap metric.GetLabel ∨ k ∈ e.2.2 ∨ k ∈ cfg.Metric.Labels)
        ∧ (∀ v, AList.lookup "mode" cfg.Metric.Labels = some v
            → AList.lookup "mode" ts.Metric.Labels = some v)
        ∧ (∀ v, AList.lookup "mode" cfg.Metric.Labels = none
            → AList.lookup "mode" e.2.2 = some v
            → AList.lookup "mode" ts.Metric.Labels = some v) := by
  intro ts hts
  obtain ⟨metric, hmetric, pv, hpv, e, he, rfl⟩ :=
    toTimeSeries_mem caseTable now cfg family out hout ts hts
  refine ⟨metric, hmetric, pv, hpv, e, he, rfl, ?_, ?_, ?_, ?_, ?_, ?_⟩
  · intro k
    simp only [toTimeSeries.series, lookup_mergeMaps3, lookup_labelPairsToMap]
  · intro k
    simp only [toTimeSeries.series, mem_mergeMaps3, mem_labelPairsToMap]
  · intro k
    exact lookup_mergeMaps3 _ _ _ k
  · intro k
    exact mem_mergeMaps3 _ _ _ k
  · intro v hv
    simp only [toTimeSeries.series, lookup_mergeMaps3, hv, Option.or_some]
  · intro v hv hv2
    simp only [toTimeSeries.series, lookup_mergeMaps3, hv, hv2, Option.or_some,
      Option.none_or]

/-- A summary instance labelled `mode=raw`, `job=a`, `zone=z` under the static
label `job=fixed`: in both series `zone=z` is kept from the instance, `mode` is
the one of the expansion and `job` the static one. -/
theorem toTimeSeries_labels_witness :
    toTimeSeries id 0 exampleLabelsConfig exampleLabelsSummary
      = .ok [exampleLabelsSeries "sum" 10, exampleLabelsSeries "count" 5]
    ∧ (AList.lookup "zone" (exampleLabelsSeries "sum" 10).Metric.Labels = some "z"
      ∧ AList.lookup "mode" (exampleLabelsSeries "sum" 10).Metric.Labels = some "sum"
      ∧ AList.lookup "job" (exampleLabelsSeries "sum" 10).Metric.Labels = some "fixed")
    ∧ ∀ ts ∈ [exampleLabelsSeries "sum" 10, exampleLabelsSeries "count" 5],
      ∃ metric ∈ exampleLabelsSummary.GetMetric, ∃ pv,
      newPromMetricValues exampleLabelsSummary.GetType metric = .ok pv
      ∧ ∃ e ∈ emitted pv,
        ts.Metric.Labels
          = mergeMaps [labelPairsToMap metric.GetLabel, e.2.2, exampleLabelsConfig.Metric.Labels]
        ∧ (∀ k, AList.lookup k ts.Metric.Labels
            = (AList.lookup k exampleLabelsConfig.Metric.Labels).or
                ((AList.lookup k e.2.2).or
                  ((metric.GetLabel.reverse.find? (fun pair => pair.GetName == k)).map
                    (fun pair => pair.GetValue))))
        ∧ (∀ k, k ∈ ts.Metric.Labels
            ↔ (∃ pair ∈ metric.GetLabel, pair.GetName = k) ∨ k ∈ e.2.2
              ∨ k ∈ exampleLabelsConfig.Metric.Labels)
        ∧ (∀ k, AList.lookup k ts.Metric.Labels
            = (AList.lookup k exampleLabelsConfig.Metric.Labels).or
                ((AList.lookup k e.2.2).or (AList.lookup k (labelPairsToMap metric.GetLabel))))
        ∧ (∀ k, k ∈ ts.Metric.Labels
            ↔ k ∈ labelPairsToMap metric.GetLabel ∨ k ∈ e.2.2
              ∨ k ∈ exampleLabelsConfig.Metric.Labels)
        ∧ (∀ v, AList.lookup "mode" exampleLabelsConfig.Metric.Labels = some v
            → AList.lookup "mode" ts.Metric.Labels = some v)
        ∧ (∀ v, AList.lookup "mode" exampleLabelsConfig.Metric.Labels = none
            → AList.lookup "mode" e.2.2 = some v
            → AList.lookup "mode" ts.Metric.Labels = some v) :=
  ⟨rfl, ⟨rfl, rfl, rfl⟩,
    toTimeSeries_labels id 0 exampleLabelsConfig exampleLabelsSummary _ rfl⟩

/-- C5, as the code has it: `newPbMetricType pfx name` is the `/`-join of the
fixed segment `custom.googleapis.com`, then the non-empty prefix segments in
declared order, each after the same replacement of every maximal run of
characters outside `[a-z0-9]` by one `_` (a prefix segment is not
lower-cased), then the normalized family name last. Prefix `api` and name
`http_requests_total` give `custom.googleapis.com/api/http_requests_total`. -/
theorem newPbMetricType_join (caseTable : Char → Char) (pfx : List String) (name : String) :
    newPbMetricType caseTable pfx name
      = String.intercalate "/" ("custom.googleapis.com"
          :: ((pfx.filter (fun str => str ≠ "")).map regReplaceAllString
              ++ [normalizeName caseTable name]))
    ∧ (∀ str : String, (regReplaceAllString str).data = replaceRunsSpec str.data)
    ∧ newPbMetricType caseTable ["api"] "http_requests_total"
        = "custom.googleapis.com/api/http_requests_total" :=
  ⟨newPbMetricType_unfold caseTable pfx name, fun str => replaceAllRuns_eq_spec str.data, rfl⟩

/-- C5 as stated fails on the prefix segment `A`: the code writes `_` for it,
the join of the segments as declared has `A`. -/
theorem newPbMetricType_prefix_not_verbatim :
    newPbMetricType id ["A"] "x" = "custom.googleapis.com/_/x"
    ∧ String.intercalate "/" ("custom.googleapis.com"
        :: ((["A"].filter (fun str => str ≠ "")) ++ [normalizeName id "x"]))
      = "custom.googleapis.com/A/x"
    ∧ newPbMetricType id ["A"] "x"
      ≠ String.intercalate "/" ("custom.googleapis.com"
        :: ((["A"].filter (fun str => str ≠ "")) ++ [normalizeName id "x"])) := by
  decide

/-- C6: the normalized name is the last `/`-segment of `newPbMetricType` (what
follows the last `/`); it is the lower-cased name in which every maximal run of
characters outside `[a-z0-9]` is replaced by one `_` and every other character
is kept in place; it has only characters of `[a-z0-9_]` and no two adjacent
underscores. -/
theorem normalizeName_runs (caseTable : Char → Char) (pfx : List String) (name : String) :
    (∃ head : String,
        newPbMetricType caseTable pfx name = head ++ "/" ++ normalizeName caseTable name)
    ∧ '/' ∉ (normalizeName caseTable name).data
    ∧ (normalizeName caseTable name).data
        = replaceRunsSpec (name.data.map (unicodeToLower caseTable))
    ∧ (∀ c ∈ (normalizeName caseTable name).data, c.isLower ∨ c.isDigit ∨ c = '_')
    ∧ List.Chain' (fun a b => ¬(a = '_' ∧ b = '_')) (normalizeName caseTable name).data := by
  have hchars := replaceAllRuns_chars false (stringsToLower caseTable name).data
  refine ⟨?_, ?_, replaceAllRuns_eq_spec _, ?_,
    replaceAllRuns_chain false (stringsToLower caseTable name).data⟩
  · refine ⟨String.intercalate.go "custom.googleapis.com" "/"
      ((pfx.filter (fun str => str ≠ "")).map regReplaceAllString), ?_⟩
    rw [newPbMetricType_unfold]
    exact intercalate_go_append _ _ _ _
  · intro hmem
    rcases hchars '/' hmem with h | h
    · revert h
      decide
    · revert h
      decide
  · intro c hc
    rcases hchars c hc with h | h
    · rw [regClass_eq_not_lowerAlnum] at h
      have h2 : lowerAlnum c = true := by simpa using h
      simp only [lowerAlnum, Bool.or_eq_true] at h2
      rcases h2 with h3 | h3
      · exact Or.inl h3
      · exact Or.inr (Or.inl h3)
    · exact Or.inr (Or.inr h)

/-- C7: normalizing a normalized name gives it back, and `newPbMetricType`
gives the same identifier for a name and for its normalized form. -/
theorem normalizeName_idempotent (caseTable : Char → Char) (name : String) :
    normalizeName caseTable (normalizeName caseTable name) = normalizeName caseTable name
    ∧ ∀ pfx : List String,
        newPbMetricType caseTable pfx (normalizeName caseTable name)
          = newPbMetricType caseTable pfx name := by
  refine ⟨normalizeName_fixed caseTable name, fun pfx => ?_⟩
  rw [newPbMetricType_unfold, newPbMetricType_unfold, normalizeName_fixed]

/-- C8, as the code has it: a family with at least one instance whose type tag
is none of GAUGE, COUNTER, UNTYPED, SUMMARY, HISTOGRAM makes `toTimeSeries`
fail with the unknown-metric-type error, so that no series is returned,
whatever the instances are. -/
theorem toTimeSeries_unknown_type {F : Type} [Float64 F] (caseTable : Char → Char) (now : Int)
    (cfg : Config) (family : client_model.MetricFamily F)
    (h1 : family.GetType ≠ client_model.MetricType_GAUGE)
    (h2 : family.GetType ≠ client_model.MetricType_COUNTER)
    (h3 : family.GetType ≠ client_model.MetricType_UNTYPED)
    (h4 : family.GetType ≠ client_model.MetricType_SUMMARY)
    (h5 : family.GetType ≠ client_model.MetricType_HISTOGRAM)
    (hne : family.GetMetric ≠ []) :
    toTimeSeries caseTable now cfg family = .error (.UnknownMetricType family.GetType) :=
  toTimeSeries_unknown caseTable now cfg family h1 h2 h3 h4 h5 hne

/-- A family of type tag 5 with one instance fails. -/
theorem toTimeSeries_unknown_type_witness :
    exampleUnknown.GetType ≠ client_model.MetricType_GAUGE
    ∧ exampleUnknown.GetType ≠ client_model.MetricType_COUNTER
    ∧ exampleUnknown.GetType ≠ client_model.MetricType_UNTYPED
    ∧ exampleUnknown.GetType ≠ client_model.MetricType_SUMMARY
    ∧ exampleUnknown.GetType ≠ client_model.MetricType_HISTOGRAM
    ∧ exampleUnknown.GetMetric ≠ []
    ∧ toTimeSeries id 0 exampleConfig exampleUnknown
        = .error (.UnknownMetricType exampleUnknown.GetType) :=
  ⟨by decide, by decide, by decide, by decide, by decide, by decide,
    toTimeSeries_unknown_type id 0 exampleConfig exampleUnknown (by decide) (by decide)
      (by decide) (by decide) (by decide) (by decide)⟩

/-- C8 as stated fails on a family without instances: its type tag 5 is none of
the five known ones, and `toTimeSeries` succeeds with no series. -/
theorem toTimeSeries_unknown_type_empty_family :
    exampleUnknownEmpty.GetType ≠ client_model.MetricType_GAUGE
    ∧ exampleUnknownEmpty.GetType ≠ client_model.MetricType_COUNTER
    ∧ exampleUnknownEmpty.GetType ≠ client_model.MetricType_UNTYPED
    ∧ exampleUnknownEmpty.GetType ≠ client_model.MetricType_SUMMARY
    ∧ exampleUnknownEmpty.GetType ≠ client_model.MetricType_HISTOGRAM
    ∧ toTimeSeries id 0 exampleConfig exampleUnknownEmpty = .ok [] :=
  ⟨by decide, by decide, by decide, by decide, by decide, rfl⟩

theorem foldl_count {α : Type} (bs : List (List α)) (n : Nat) :
    bs.foldl (fun n _ => n + 1) n = n + bs.length := by
  induction bs generalizing n with
  | nil => simp
  | cons b t ih =>
    rw [List.foldl_cons, ih, List.length_cons]
    omega

/-- C9: a callback that never fails, one that maps the state `s` and the batch
`c` to the state `g s c`, is run by `eachChunk` on the batches `batchesOf ts`
once each and in order, and `eachChunk` succeeds; a callback that counts its
calls counts ceil(K/200) = (K + 199) / 200 of them for K series. There are
that many batches, every batch but the last has exactly `chunkSize` = 200
series, every batch has between 1 and 200, and the batches concatenated in
call order are the list itself; for the empty list there is no call. -/
theorem eachChunk_batches {α σ : Type} (ts : List α) (g : σ → List α → σ) (st : σ) :
    eachChunk ts (fun c s => .ok (g s c)) st = .ok ((batchesOf ts).foldl g st)
    ∧ eachChunk ts (fun _ n => .ok (n + 1)) 0 = .ok ((ts.length + 199) / 200)
    ∧ chunkSize = 200
    ∧ (batchesOf ts).length = (ts.length + 199) / 200
    ∧ (∀ b ∈ (batchesOf ts).dropLast, b.length = chunkSize)
    ∧ (∀ b ∈ batchesOf ts, 1 ≤ b.length ∧ b.length ≤ chunkSize)
    ∧ (batchesOf ts).flatten = ts
    ∧ (ts = [] → batchesOf ts = []) := by
  obtain ⟨hrun, hflat, hlen, hsize, hfull⟩ := eachChunk_spec ts
  have hlen2 : (batchesOf ts).length = (ts.length + 199) / 200 := by
    rw [hlen]
    rfl
  refine ⟨hrun σ g st, ?_, rfl, hlen2, hfull, hsize, hflat, ?_⟩
  · rw [hrun Nat (fun n _ => n + 1) 0, foldl_count, hlen2, Nat.zero_add]
  · intro hnil
    apply List.eq_nil_of_length_eq_zero
    rw [hlen2, hnil, List.length_nil]

theorem send_eq {F : Type} (client : MetricClient F) (cfg : Config) :
    workerLoop.send client cfg
      = fun c w => .ok
          { requests := w.requests
              ++ [{ Name := MetricProjectPath cfg.Project, TimeSeries := c }]
            logged :=
              match client.CreateTimeSeries w.requests
                { Name := MetricProjectPath cfg.Project, TimeSeries := c } with
              | some err => w.logged ++ [err]
              | none => w.logged } := by
  funext c w
  unfold workerLoop.send
  dsimp only
  generalize client.CreateTimeSeries w.requests
    { Name := MetricProjectPath cfg.Project, TimeSeries := c } = answer
  cases answer <;> rfl

theorem foldl_requests {F : Type} (client : MetricClient F) (name : String)
    (bs : List (List (pb_monitoring.TimeSeries F))) (w : WorkerState F) :
    (bs.foldl (fun (w : WorkerState F) c =>
        ({ requests := w.requests ++ [{ Name := name, TimeSeries := c }]
           logged :=
             match client.CreateTimeSeries w.requests { Name := name, TimeSeries := c } with
             | some err => w.logged ++ [err]
             | none => w.logged } : WorkerState F)) w).requests
      = w.requests ++ bs.map (fun c => { Name := name, TimeSeries := c }) := by
  induction bs generalizing w with
  | nil => simp
  | cons b t ih =>
    rw [List.foldl_cons, ih]
    simp

/-- C10: whatever the client answers to each request, the dispatch step of
`workerLoop` succeeds and offers to the client one request per batch of
`eachChunk`, in order: the requests made are those made before followed by
the (K + 199) / 200 batches of the list, each under the project path of the
target. A second client with other failures is offered the same requests. -/
theorem dispatch_offers_all_batches {F : Type} (client : MetricClient F) (cfg : Config)
    (ts : List (pb_monitoring.TimeSeries F)) (w : WorkerState F) :
    ∃ w1, workerLoop.dispatch client cfg ts w = .ok w1
      ∧ w1.requests = w.requests ++ (batchesOf ts).map (fun c =>
          { Name := MetricProjectPath cfg.Project, TimeSeries := c })
      ∧ (batchesOf ts).length = (ts.length + 199) / 200
      ∧ (batchesOf ts).flatten = ts
      ∧ ∀ client2 : MetricClient F, ∃ w2,
          workerLoop.dispatch client2 cfg ts w = .ok w2 ∧ w2.requests = w1.requests := by
  have hrun : ∀ cl : MetricClient F, ∃ w1, workerLoop.dispatch cl cfg ts w = .ok w1
      ∧ w1.requests = w.requests ++ (batchesOf ts).map (fun c =>
          { Name := MetricProjectPath cfg.Project, TimeSeries := c }) := by
    intro cl
    unfold workerLoop.dispatch
    rw [send_eq cl cfg, (eachChunk_spec ts).1]
    exact ⟨_, rfl, foldl_requests cl _ _ w⟩
  obtain ⟨w1, hw1, hreq1⟩ := hrun client
  refine ⟨w1, hw1, hreq1, ?_, (eachChunk_spec ts).2.1, ?_⟩
  · rw [(eachChunk_spec ts).2.2.1]
    rfl
  · intro client2
    obtain ⟨w2, hw2, hreq2⟩ := hrun client2
    exact ⟨w2, hw2, hreq2.trans hreq1.symm⟩

/-- C13: every series of a successful `toTimeSeries` has metric kind GAUGE,
whatever the type of the family, and exactly one data point. -/
theorem toTimeSeries_kind_gauge {F : Type} [Float64 F] (caseTable : Char → Char) (now : Int)
    (cfg : Config) (family : client_model.MetricFamily F)
    (out : List (pb_monitoring.TimeSeries F))
    (hout : toTimeSeries caseTable now cfg family = .ok out) :
    ∀ ts ∈ out, ts.MetricKind = pb_metric.MetricDescriptor_MetricKind.GAUGE
      ∧ ts.Points.length = 1 := by
  intro ts hts
  obtain ⟨metric, _, pv, _, e, he, rfl⟩ :=
    toTimeSeries_mem caseTable now cfg family out hout ts hts
  exact ⟨emitted_kind pv e he, rfl⟩

/-- The summary example under a static label `mode`: both series are gauges
with one point. -/
theorem toTimeSeries_kind_gauge_witness :
    toTimeSeries id 0 exampleModeConfig exampleModeSummary = .ok exampleModeSeries
    ∧ ∀ ts ∈ exampleModeSeries, ts.MetricKind = pb_metric.MetricDescriptor_MetricKind.GAUGE
      ∧ ts.Points.length = 1 :=
  ⟨rfl, toTimeSeries_kind_gauge id 0 exampleModeConfig exampleModeSummary exampleModeSeries rfl⟩

/-- C19: the output of a successful `toTimeSeries` is the concatenation, in
instance order, of one block per instance, the block being the series the
callback builds from the argument triples of `each`, in call order; for a
SUMMARY family these are the sum, the count and the quantiles in declared
order, for a HISTOGRAM family the sum, the count and the buckets in declared
order. Every series carries the identifier
`newPbMetricType cfg.Metric.Prefix name` of the family and the resource type
and labels of `cfg.Resource`. -/
theorem toTimeSeries_order {F : Type} [Float64 F] (caseTable : Char → Char) (now : Int)
    (cfg : Config) (family : client_model.MetricFamily F)
    (out : List (pb_monitoring.TimeSeries F))
    (hout : toTimeSeries caseTable now cfg family = .ok out) :
    (∃ blocks : List (List (pb_monitoring.TimeSeries F)), out = blocks.flatten
      ∧ List.Forall₂ (fun metric block => ∃ args,
          block = args.map (fun e =>
            toTimeSeries.series cfg (timeIntervalEnd now)
              (newPbMetricType caseTable cfg.Metric.Prefix family.GetName)
              { Type_ := cfg.Resource.Type_, Labels := cfg.Resource.Labels }
              (labelPairsToMap metric.GetLabel) e.1 e.2.1 e.2.2)
          ∧ (family.GetType = client_model.MetricType_SUMMARY →
              args = (toDoubleValue metric.GetSummary.GetSampleSum, .GAUGE,
                      (∅ : StrMap).insert "mode" "sum")
                :: (toDoubleValue (Float64.ofUint64 metric.GetSummary.GetSampleCount), .GAUGE,
                      (∅ : StrMap).insert "mode" "count")
                :: metric.GetSummary.GetQuantile.map (fun quantile =>
                    (toDoubleValue quantile.GetValue, .GAUGE,
                      ((∅ : StrMap).insert "mode" "quantile").insert "quantile"
                        (Float64.sprintV quantile.GetQuantile))))
          ∧ (family.GetType = client_model.MetricType_HISTOGRAM →
              args = (toDoubleValue metric.GetHistogram.GetSampleSum, .GAUGE,
                      (∅ : StrMap).insert "mode" "sum")
                :: (toDoubleValue (Float64.ofUint64 metric.GetHistogram.GetSampleCount),
                      .GAUGE, (∅ : StrMap).insert "mode" "count")
                :: metric.GetHistogram.GetBucket.map (fun bucket =>
                    (toDoubleValue (Float64.ofUint64 bucket.GetCumulativeCount), .GAUGE,
                      ((∅ : StrMap).insert "mode" "bucket").insert "le"
                        (Float64.sprintV bucket.GetUpperBound)))))
        family.GetMetric blocks)
    ∧ ∀ ts ∈ out,
        ts.Metric.Type_ = newPbMetricType caseTable cfg.Metric.Prefix family.GetName
        ∧ ts.Resource.Type_ = cfg.Resource.Type_
        ∧ ts.Resource.Labels = cfg.Resource.Labels := by
  refine ⟨?_, ?_⟩
  · obtain ⟨blocks, hflat, hblocks⟩ := toTimeSeries_blocks caseTable now cfg family out hout
    refine ⟨blocks, hflat, ?_⟩
    refine List.Forall₂.imp ?_ hblocks
    intro metric block hblock
    obtain ⟨pv, hpv, rfl⟩ := hblock
    refine ⟨emitted pv, rfl, ?_, ?_⟩
    · intro htype
      have hpv2 : newPromMetricValues family.GetType metric
          = .ok (.promSummary metric.GetSummary) := by
        simp [newPromMetricValues, htype]
      rw [hpv2] at hpv
      injection hpv with hpv
      rw [← hpv, emitted_promSummary]
    · intro htype
      have hpv2 : newPromMetricValues family.GetType metric
          = .ok (.promHistgram metric.GetHistogram) := by
        simp [newPromMetricValues, htype, client_model.MetricType_HISTOGRAM,
          client_model.MetricType_SUMMARY]
      rw [hpv2] at hpv
      injection hpv with hpv
      rw [← hpv, emitted_promHistgram]
  · intro ts hts
    obtain ⟨metric, _, pv, _, e, _, rfl⟩ :=
      toTimeSeries_mem caseTable now cfg family out hout ts hts
    exact ⟨rfl, rfl, rfl⟩

/-- The summary example: sum, count, then the quantiles 50 and 99. -/
theorem toTimeSeries_order_witness :
    toTimeSeries id 0 exampleConfig exampleSummary = .ok exampleSummarySeries
    ∧ (∃ blocks : List (List (pb_monitoring.TimeSeries Int)),
        exampleSummarySeries = blocks.flatten
      ∧ List.Forall₂ (fun metric block => ∃ args,
          block = args.map (fun e =>
            toTimeSeries.series exampleConfig (timeIntervalEnd 0)
              (newPbMetricType id exampleConfig.Metric.Prefix exampleSummary.GetName)
              { Type_ := exampleConfig.Resource.Type_, Labels := exampleConfig.Resource.Labels }
              (labelPairsToMap metric.GetLabel) e.1 e.2.1 e.2.2)
          ∧ (exampleSummary.GetType = client_model.MetricType_SUMMARY →
              args = (toDoubleValue metric.GetSummary.GetSampleSum, .GAUGE,
                      (∅ : StrMap).insert "mode" "sum")
                :: (toDoubleValue (Float64.ofUint64 metric.GetSummary.GetSampleCount), .GAUGE,
                      (∅ : StrMap).insert "mode" "count")
                :: metric.GetSummary.GetQuantile.map (fun quantile =>
                    (toDoubleValue quantile.GetValue, .GAUGE,
                      ((∅ : StrMap).insert "mode" "quantile").insert "quantile"
                        (Float64.sprintV quantile.GetQuantile))))
          ∧ (exampleSummary.GetType = client_model.MetricType_HISTOGRAM →
              args = (toDoubleValue metric.GetHistogram.GetSampleSum, .GAUGE,
                      (∅ : StrMap).insert "mode" "sum")
                :: (toDoubleValue (Float64.ofUint64 metric.GetHistogram.GetSampleCount),
                      .GAUGE, (∅ : StrMap).insert "mode" "count")
                :: metric.GetHistogram.GetBucket.map (fun bucket =>
                    (toDoubleValue (Float64.ofUint64 bucket.GetCumulativeCount), .GAUGE,
                      ((∅ : StrMap).insert "mode" "bucket").insert "le"
                        (Float64.sprintV bucket.GetUpperBound)))))
        exampleSummary.GetMetric blocks)
    ∧ ∀ ts ∈ exampleSummarySeries,
        ts.Metric.Type_ = newPbMetricType id exampleConfig.Metric.Prefix exampleSummary.GetName
        ∧ ts.Resource.Type_ = exampleConfig.Resource.Type_
        ∧ ts.Resource.Labels = exampleConfig.Resource.Labels :=
  ⟨rfl, toTimeSeries_order id 0 exampleConfig exampleSummary exampleSummarySeries rfl⟩

/-- C11: a family whose name the filter rejects adds nothing to a poll cycle:
in a world where this family is removed from the map the parser returns,
`FetchTimeSeries` has the same outcome, series or error, whatever the
family contains. -/
theorem FetchTimeSeries_filter_exclusive {F : Type} [Float64 F] (caseTable : Char → Char)
    (env : Env F) (cfg : Config) (capacity : Nat) (name : String)
    (hno : cfg.Filter.MatchString name = false) :
    FetchTimeSeries caseTable
        { Get := env.Get
          TextToMetricFamilies := fun body =>
            (env.TextToMetricFamilies body).map (fun families => families.erase name)
          Now := env.Now } cfg capacity
      = FetchTimeSeries caseTable env cfg capacity := by
  unfold FetchTimeSeries
  rw [fetchMetricFamilies_erase]
  cases fetchMetricFamilies env cfg.Target with
  | error err => rfl
  | ok families =>
    show (families.entries.kerase name).foldlM _ [] = families.entries.foldlM _ []
    apply foldlM_kerase
    intro ret e he
    simp only [he, hno, Bool.false_eq_true, if_false]

/-- The family `x` of unknown type is rejected by the filter of
`exampleFilterConfig`: with or without it the outcome is the same. -/
theorem FetchTimeSeries_filter_exclusive_witness :
    exampleFilterConfig.Filter.MatchString "x" = false
    ∧ FetchTimeSeries id
        { Get := (exampleEnv exampleFamilies).Get
          TextToMetricFamilies := fun body =>
            ((exampleEnv exampleFamilies).TextToMetricFamilies body).map
              (fun families => families.erase "x")
          Now := (exampleEnv exampleFamilies).Now } exampleFilterConfig chunkSize
      = FetchTimeSeries id (exampleEnv exampleFamilies) exampleFilterConfig chunkSize :=
  ⟨rfl, FetchTimeSeries_filter_exclusive id (exampleEnv exampleFamilies) exampleFilterConfig
    chunkSize "x" rfl⟩

/-- C12: after a successful fetch, `FetchTimeSeries` returns an error, and so
no series at all, exactly when `toTimeSeries` fails for some family whose
name matches the filter; a poll cycle in which it returns an error offers no
request to the client and logs the error. -/
theorem FetchTimeSeries_error_iff {F : Type} [Float64 F] (caseTable : Char → Char)
    (env : Env F) (cfg : Config) (families : FamilyMap F)
    (hfetch : fetchMetricFamilies env cfg.Target = .ok families) :
    ((∃ err, FetchTimeSeries caseTable env cfg chunkSize = .error err)
      ↔ ∃ e ∈ families.entries, cfg.Filter.MatchString e.1 = true
          ∧ ∃ err, toTimeSeries caseTable (env.Now e.1) cfg e.2 = .error err)
    ∧ ∀ err, FetchTimeSeries caseTable env cfg chunkSize = .error err →
        ∀ (client : MetricClient F) (w : WorkerState F),
          (workerLoop.cycle caseTable client cfg env w).requests = w.requests
          ∧ (workerLoop.cycle caseTable client cfg env w).logged = w.logged ++ [err] := by
  refine ⟨⟨?_, ?_⟩, ?_⟩
  · rintro ⟨err, herr⟩
    rcases exists_error_or_all_ok
        (fun e : Sigma fun _ : String => client_model.MetricFamily F =>
          toTimeSeries caseTable (env.Now e.1) cfg e.2)
        (families.entries.filter (fun e => cfg.Filter.MatchString e.1)) with hbad | hall
    · obtain ⟨e, he, err2, herr2⟩ := hbad
      rw [List.mem_filter] at he
      exact ⟨e, he.1, he.2, err2, herr2⟩
    · obtain ⟨outs, houts⟩ := forall₂_of_all_ok _ _ hall
      rw [FetchTimeSeries_ok caseTable env cfg chunkSize families hfetch outs houts] at herr
      cases herr
  · intro hbad
    exact FetchTimeSeries_error caseTable env cfg chunkSize families hfetch hbad
  · intro err herr client w
    exact cycle_of_error caseTable client cfg env w err herr

/-- The fetched map holds the family `x` of unknown type and the filter of
`exampleConfig` accepts every name. -/
theorem FetchTimeSeries_error_iff_witness :
    fetchMetricFamilies (exampleEnv exampleFamilies) exampleConfig.Target = .ok exampleFamilies
    ∧ ((∃ err, FetchTimeSeries id (exampleEnv exampleFamilies) exampleConfig chunkSize
          = .error err)
      ↔ ∃ e ∈ exampleFamilies.entries, exampleConfig.Filter.MatchString e.1 = true
          ∧ ∃ err, toTimeSeries id ((exampleEnv exampleFamilies).Now e.1) exampleConfig e.2
              = .error err)
    ∧ ∀ err, FetchTimeSeries id (exampleEnv exampleFamilies) exampleConfig chunkSize
          = .error err →
        ∀ (client : MetricClient Int) (w : WorkerState Int),
          (workerLoop.cycle id client exampleConfig (exampleEnv exampleFamilies) w).requests
            = w.requests
          ∧ (workerLoop.cycle id client exampleConfig (exampleEnv exampleFamilies) w).logged
            = w.logged ++ [err] :=
  ⟨rfl, FetchTimeSeries_error_iff id (exampleEnv exampleFamilies) exampleConfig exampleFamilies
    rfl⟩

/-- C18: when the response has a status code outside 200..299,
`fetchMetricFamilies` returns the invalid-status error whatever the parser
would make of the body, `FetchTimeSeries` returns that error, and the poll
cycle offers no request to the client; when the status code is in 200..299,
`fetchMetricFamilies` returns what the parser returns on the body. -/
theorem fetchMetricFamilies_status {F : Type} [Float64 F] (caseTable : Char → Char)
    (env : Env F) (cfg : Config) (res : Response)
    (hget : env.Get cfg.Target = .ok res) :
    ((res.StatusCode < 200 ∨ 300 ≤ res.StatusCode) →
      fetchMetricFamilies env cfg.Target = .error (.InvalidStatusCode res.StatusCode)
      ∧ (∀ parser : String → Except Error (FamilyMap F),
          fetchMetricFamilies
              { Get := env.Get, TextToMetricFamilies := parser, Now := env.Now } cfg.Target
            = .error (.InvalidStatusCode res.StatusCode))
      ∧ FetchTimeSeries caseTable env cfg chunkSize
          = .error (.InvalidStatusCode res.StatusCode)
      ∧ ∀ (client : MetricClient F) (w : WorkerState F),
          (workerLoop.cycle caseTable client cfg env w).requests = w.requests)
    ∧ ((200 ≤ res.StatusCode ∧ res.StatusCode < 300) →
      fetchMetricFamilies env cfg.Target = env.TextToMetricFamilies res.Body) := by
  refine ⟨?_, ?_⟩
  · intro hcode
    have hcode2 : res.StatusCode < 200 ∨ res.StatusCode ≥ 300 := hcode
    have hfetch : ∀ parser : String → Except Error (FamilyMap F),
        fetchMetricFamilies
            { Get := env.Get, TextToMetricFamilies := parser, Now := env.Now } cfg.Target
          = .error (.InvalidStatusCode res.StatusCode) := by
      intro parser
      unfold fetchMetricFamilies
      simp only [hget, hcode2, if_true]
    have hfetch2 : fetchMetricFamilies env cfg.Target
        = .error (.InvalidStatusCode res.StatusCode) := hfetch env.TextToMetricFamilies
    have hfts := FetchTimeSeries_of_fetch_error caseTable env cfg chunkSize _ hfetch2
    exact ⟨hfetch2, hfetch, hfts, fun client w =>
      (cycle_of_error caseTable client cfg env w _ hfts).1⟩
  · intro hcode
    have hcode2 : ¬(res.StatusCode < 200 ∨ res.StatusCode ≥ 300) := by omega
    unfold fetchMetricFamilies
    simp only [hget, hcode2, if_false]

/-- The target answers 500. -/
theorem fetchMetricFamilies_status_witness :
    exampleEnv500.Get exampleConfig.Target = .ok { StatusCode := 500, Body := "internal error" }
    ∧ ((((500 : Int) < 200 ∨ (300 : Int) ≤ 500) →
      fetchMetricFamilies exampleEnv500 exampleConfig.Target = .error (.InvalidStatusCode 500)
      ∧ (∀ parser : String → Except Error (FamilyMap Int),
          fetchMetricFamilies
              { Get := exampleEnv500.Get, TextToMetricFamilies := parser,
                Now := exampleEnv500.Now } exampleConfig.Target
            = .error (.InvalidStatusCode 500))
      ∧ FetchTimeSeries id exampleEnv500 exampleConfig chunkSize
          = .error (.InvalidStatusCode 500)
      ∧ ∀ (client : MetricClient Int) (w : WorkerState Int),
          (workerLoop.cycle id client exampleConfig exampleEnv500 w).requests = w.requests)
    ∧ ((((200 : Int) ≤ 500 ∧ (500 : Int) < 300)) →
      fetchMetricFamilies exampleEnv500 exampleConfig.Target
        = exampleEnv500.TextToMetricFamilies "internal error")) :=
  ⟨rfl, fetchMetricFamilies_status id exampleEnv500 exampleConfig
    { StatusCode := 500, Body := "internal error" } rfl⟩

/-- C20: two runs of `FetchTimeSeries` that fetch the same families in two
enumeration orders, with the same Config and the same timestamps, both fail
or both succeed; when they succeed, each output is the concatenation of the
`toTimeSeries` outputs of the families with a matching name, in the
enumeration order of that run, and the two outputs are permutations of each
other. -/
theorem FetchTimeSeries_enumeration_order {F : Type} [Float64 F] (caseTable : Char → Char)
    (env1 env2 : Env F) (cfg : Config) (capacity : Nat) (families1 families2 : FamilyMap F)
    (hfetch1 : fetchMetricFamilies env1 cfg.Target = .ok families1)
    (hfetch2 : fetchMetricFamilies env2 cfg.Target = .ok families2)
    (hperm : families1.entries.Perm families2.entries)
    (hnow : env1.Now = env2.Now) :
    ((∃ err1, FetchTimeSeries caseTable env1 cfg capacity = .error err1)
      ∧ ∃ err2, FetchTimeSeries caseTable env2 cfg capacity = .error err2)
    ∨ ∃ outs1 outs2 : List (List (pb_monitoring.TimeSeries F)),
        FetchTimeSeries caseTable env1 cfg capacity = .ok outs1.flatten
        ∧ FetchTimeSeries caseTable env2 cfg capacity = .ok outs2.flatten
        ∧ List.Forall₂ (fun e ts => toTimeSeries caseTable (env1.Now e.1) cfg e.2 = .ok ts)
            (families1.entries.filter (fun e => cfg.Filter.MatchString e.1)) outs1
        ∧ List.Forall₂ (fun e ts => toTimeSeries caseTable (env2.Now e.1) cfg e.2 = .ok ts)
            (families2.entries.filter (fun e => cfg.Filter.MatchString e.1)) outs2
        ∧ outs1.flatten.Perm outs2.flatten := by
  have hpermf : (families1.entries.filter (fun e => cfg.Filter.MatchString e.1)).Perm
      (families2.entries.filter (fun e => cfg.Filter.MatchString e.1)) := hperm.filter _
  rcases exists_error_or_all_ok
      (fun e : Sigma fun _ : String => client_model.MetricFamily F =>
        toTimeSeries caseTable (env1.Now e.1) cfg e.2)
      (families1.entries.filter (fun e => cfg.Filter.MatchString e.1)) with hbad | hall
  · left
    obtain ⟨e, he, err, herr⟩ := hbad
    have he2 := hpermf.mem_iff.mp he
    rw [List.mem_filter] at he he2
    refine ⟨?_, ?_⟩
    · exact FetchTimeSeries_error caseTable env1 cfg capacity families1 hfetch1
        ⟨e, he.1, he.2, err, herr⟩
    · refine FetchTimeSeries_error caseTable env2 cfg capacity families2 hfetch2
        ⟨e, he2.1, he2.2, err, ?_⟩
      rw [← hnow]
      exact herr
  · right
    have hall2 : ∀ e ∈ families2.entries.filter (fun e => cfg.Filter.MatchString e.1),
        ∃ ts, toTimeSeries caseTable (env2.Now e.1) cfg e.2 = .ok ts := by
      intro e he
      rw [← hnow]
      exact hall e (hpermf.mem_iff.mpr he)
    obtain ⟨outs1, houts1⟩ := forall₂_of_all_ok _ _ hall
    obtain ⟨outs2, houts2⟩ := forall₂_of_all_ok _ _ hall2
    refine ⟨outs1, outs2,
      FetchTimeSeries_ok caseTable env1 cfg capacity families1 hfetch1 outs1 houts1,
      FetchTimeSeries_ok caseTable env2 cfg capacity families2 hfetch2 outs2 houts2,
      houts1, houts2, ?_⟩
    have h1 := forall₂_ok_eq_map _ _ _ houts1
    have h2 := forall₂_ok_eq_map _ _ _ houts2
    rw [h1, h2, ← hnow]
    exact (hpermf.map _).flatten

/-- The two example maps hold the same two families in opposite orders. -/
theorem FetchTimeSeries_enumeration_order_witness :
    fetchMetricFamilies (exampleEnv exampleFamilies) exampleFilterConfig.Target
      = .ok exampleFamilies
    ∧ fetchMetricFamilies (exampleEnv exampleFamiliesSwapped) exampleFilterConfig.Target
      = .ok exampleFamiliesSwapped
    ∧ exampleFamilies.entries.Perm exampleFamiliesSwapped.entries
    ∧ (exampleEnv exampleFamilies).Now = (exampleEnv exampleFamiliesSwapped).Now
    ∧ (((∃ err1, FetchTimeSeries id (exampleEnv exampleFamilies) exampleFilterConfig chunkSize
            = .error err1)
        ∧ ∃ err2, FetchTimeSeries id (exampleEnv exampleFamiliesSwapped) exampleFilterConfig
            chunkSize = .error err2)
      ∨ ∃ outs1 outs2 : List (List (pb_monitoring.TimeSeries Int)),
        FetchTimeSeries id (exampleEnv exampleFamilies) exampleFilterConfig chunkSize
          = .ok outs1.flatten
        ∧ FetchTimeSeries id (exampleEnv exampleFamiliesSwapped) exampleFilterConfig chunkSize
          = .ok outs2.flatten
        ∧ List.Forall₂ (fun e ts =>
            toTimeSeries id ((exampleEnv exampleFamilies).Now e.1) exampleFilterConfig e.2
              = .ok ts)
            (exampleFamilies.entries.filter
              (fun e => exampleFilterConfig.Filter.MatchString e.1)) outs1
        ∧ List.Forall₂ (fun e ts =>
            toTimeSeries id ((exampleEnv exampleFamiliesSwapped).Now e.1) exampleFilterConfig e.2
              = .ok ts)
            (exampleFamiliesSwapped.entries.filter
              (fun e => exampleFilterConfig.Filter.MatchString e.1)) outs2
        ∧ outs1.flatten.Perm outs2.flatten) :=
  ⟨rfl, rfl, List.Perm.swap _ _ _, rfl,
    FetchTimeSeries_enumeration_order id (exampleEnv exampleFamilies)
      (exampleEnv exampleFamiliesSwapped) exampleFilterConfig chunkSize exampleFamilies
      exampleFamiliesSwapped rfl rfl (List.Perm.swap _ _ _) rfl⟩

/-- Every Config of a successful `ReadConfig` has as `Interval` the duration
`time.ParseDuration` returns for the interval string of its descriptor,
whatever its sign. -/
theorem ReadConfig_interval (lib : ConfigLib) (path bytes : String) (cfgs : List ConfigExpr)
    (hread : lib.ReadFile path = .ok bytes) (hdecode : lib.Unmarshal bytes = .ok cfgs)
    (out : List Config) (hout : ReadConfig lib path = .ok out) :
    List.Forall₂ (fun d c => lib.ParseDuration d.Interval = .ok c.Interval) cfgs out := by
  refine List.Forall₂.imp ?_ (ReadConfig_entries lib path bytes cfgs hread hdecode out hout)
  intro d c hc
  exact (entry_fields lib d c hc).2.2.2.2.1

/-- C15 fails on the code: the example file has the interval strings `90s`, `0`
and `-5s`; `ReadConfig` succeeds and returns Configs with the intervals 90 s,
0 and -5 s, and the worker of each of the last two calls `time.NewTicker`
with that interval and panics before any poll cycle, while the worker of the
first starts a cycle at its first tick. -/
theorem ReadConfig_interval_not_positive :
    (ReadConfig exampleLib "config.json").map (fun out => out.map (fun c =>
        (c.Interval, NewTicker c.Interval,
          (workerLoop id exampleClient c
            [Event.Tick (exampleEnv exampleCounterFamilies)]).panicked,
          (workerLoop id exampleClient c
            [Event.Tick (exampleEnv exampleCounterFamilies)]).cycles)))
      = .ok [(90000000000, some 90000000000, false, 1),
             (0, none, true, 0),
             (-5000000000, none, true, 0)] :=
  rfl

/-- C16: when the library compiles the default pattern `^.+$`, `ReadConfig` on
a decoded list of descriptors returns an error, and so no Config at all,
exactly when some descriptor has an interval string that does not parse or a
non-empty filter that does not compile; otherwise it succeeds; and when it
succeeds it returns one Config per descriptor, in input order, with Target,
Resource and Metric of the descriptor and with Project the resource label
`project_id`, the empty string when there is none. -/
theorem ReadConfig_all_or_nothing (lib : ConfigLib) (path bytes : String)
    (cfgs : List ConfigExpr)
    (hread : lib.ReadFile path = .ok bytes) (hdecode : lib.Unmarshal bytes = .ok cfgs)
    (hdefault : ∃ re, lib.Compile "^.+$" = .ok re) :
    ((∃ err, ReadConfig lib path = .error err)
      ↔ ∃ d ∈ cfgs, (∃ err, lib.ParseDuration d.Interval = .error err)
          ∨ (d.Metric.Filter ≠ "" ∧ ∃ err, lib.Compile d.Metric.Filter = .error err))
    ∧ ((¬ ∃ d ∈ cfgs, (∃ err, lib.ParseDuration d.Interval = .error err)
          ∨ (d.Metric.Filter ≠ "" ∧ ∃ err, lib.Compile d.Metric.Filter = .error err))
        → ∃ out, ReadConfig lib path = .ok out)
    ∧ ∀ out, ReadConfig lib path = .ok out →
        out.length = cfgs.length
        ∧ List.Forall₂ (fun d c =>
            c.Target = d.Target ∧ c.Resource = d.Resource ∧ c.Metric = d.Metric
            ∧ c.Project = (d.Resource.Labels.lookup "project_id").getD "")
          cfgs out := by
  have hbad : ∀ d : ConfigExpr, (∃ err, ReadConfig.entry lib d = .error err)
      ↔ ((∃ err, lib.ParseDuration d.Interval = .error err)
          ∨ (d.Metric.Filter ≠ "" ∧ ∃ err, lib.Compile d.Metric.Filter = .error err)) := by
    intro d
    rw [entry_error_iff]
    by_cases hempty : d.Metric.Filter = ""
    · obtain ⟨re, hre⟩ := hdefault
      simp [hempty, hre]
    · simp [hempty]
  have hiff : (∃ err, ReadConfig lib path = .error err)
      ↔ ∃ d ∈ cfgs, (∃ err, lib.ParseDuration d.Interval = .error err)
          ∨ (d.Metric.Filter ≠ "" ∧ ∃ err, lib.Compile d.Metric.Filter = .error err) := by
    constructor
    · rintro ⟨err, herr⟩
      rcases exists_error_or_all_ok (ReadConfig.entry lib) cfgs with hb | hall
      · obtain ⟨d, hd, hderr⟩ := hb
        exact ⟨d, hd, (hbad d).mp hderr⟩
      · obtain ⟨out, hout⟩ := forall₂_of_all_ok _ _ hall
        rw [ReadConfig_ok lib path bytes cfgs hread hdecode out hout] at herr
        cases herr
    · rintro ⟨d, hd, hderr⟩
      exact ReadConfig_error lib path bytes cfgs hread hdecode ⟨d, hd, (hbad d).mpr hderr⟩
  refine ⟨hiff, ?_, ?_⟩
  · intro hnone
    cases hrun : ReadConfig lib path with
    | error err => exact absurd (hiff.mp ⟨err, hrun⟩) hnone
    | ok out => exact ⟨out, rfl⟩
  · intro out hout
    have hentries := ReadConfig_entries lib path bytes cfgs hread hdecode out hout
    refine ⟨hentries.length_eq.symm, List.Forall₂.imp ?_ hentries⟩
    intro d c hc
    have hf := entry_fields lib d c hc
    exact ⟨hf.1, hf.2.1, hf.2.2.1, hf.2.2.2.1⟩

/-- The example file and library: the default pattern compiles. -/
theorem ReadConfig_all_or_nothing_witness :
    exampleLib.ReadFile "config.json" = .ok "[...]"
    ∧ exampleLib.Unmarshal "[...]"
        = .ok [exampleExpr "90s", exampleExpr "0", exampleExpr "-5s"]
    ∧ (∃ re, exampleLib.Compile "^.+$" = .ok re)
    ∧ ((∃ err, ReadConfig exampleLib "config.json" = .error err)
      ↔ ∃ d ∈ [exampleExpr "90s", exampleExpr "0", exampleExpr "-5s"],
          (∃ err, exampleLib.ParseDuration d.Interval = .error err)
          ∨ (d.Metric.Filter ≠ "" ∧ ∃ err, exampleLib.Compile d.Metric.Filter = .error err))
    ∧ ((¬ ∃ d ∈ [exampleExpr "90s", exampleExpr "0", exampleExpr "-5s"],
          (∃ err, exampleLib.ParseDuration d.Interval = .error err)
          ∨ (d.Metric.Filter ≠ "" ∧ ∃ err, exampleLib.Compile d.Metric.Filter = .error err))
        → ∃ out, ReadConfig exampleLib "config.json" = .ok out)
    ∧ ∀ out, ReadConfig exampleLib "config.json" = .ok out →
        out.length = [exampleExpr "90s", exampleExpr "0", exampleExpr "-5s"].length
        ∧ List.Forall₂ (fun (d : ConfigExpr) (c : Config) =>
            c.Target = d.Target ∧ c.Resource = d.Resource ∧ c.Metric = d.Metric
            ∧ c.Project = (d.Resource.Labels.lookup "project_id").getD "")
          [exampleExpr "90s", exampleExpr "0", exampleExpr "-5s"] out :=
  ⟨rfl, rfl, ⟨defaultRegexp, rfl⟩,
    ReadConfig_all_or_nothing exampleLib "config.json" "[...]" _ rfl rfl
      ⟨defaultRegexp, rfl⟩⟩

/-- C17, as the code has it: when the library compiles the default pattern
`^.+$` as the fragment does, the Config built from a descriptor with an empty
filter has a Filter that matches exactly the names that are not empty and hold
no newline, so not the empty name; and when every family of the fetched map
has such a name, the Filter matches every one of them and `FetchTimeSeries`
excludes no family: it returns what it returns with a filter that matches
every text. -/
theorem ReadConfig_default_filter (lib : ConfigLib) (path bytes : String)
    (cfgs : List ConfigExpr)
    (hread : lib.ReadFile path = .ok bytes) (hdecode : lib.Unmarshal bytes = .ok cfgs)
    (hcompile : lib.Compile "^.+$" = compileFragment "^.+$")
    (out : List Config) (hout : ReadConfig lib path = .ok out) :
    List.Forall₂ (fun d c => d.Metric.Filter = "" →
        (∀ name : String, c.Filter.MatchString name = true ↔ name ≠ "" ∧ '\n' ∉ name.data)
        ∧ c.Filter.MatchString "" = false
        ∧ ∀ (F : Type) [Float64 F] (caseTable : Char → Char) (env : Env F) (capacity : Nat)
            (families : FamilyMap F),
            fetchMetricFamilies env c.Target = .ok families →
            (∀ e ∈ families.entries, e.1 ≠ "" ∧ '\n' ∉ e.1.data) →
            (∀ e ∈ families.entries, c.Filter.MatchString e.1 = true)
            ∧ FetchTimeSeries caseTable env c capacity
                = FetchTimeSeries caseTable env
                    { c with Filter := { MatchString := fun _ => true } } capacity)
      cfgs out := by
  refine List.Forall₂.imp ?_ (ReadConfig_entries lib path bytes cfgs hread hdecode out hout)
  intro d c hc hempty
  have hf := (entry_fields lib d c hc).2.2.2.2.2
  rw [if_pos hempty, hcompile] at hf
  have hfilter : c.Filter = defaultRegexp := by
    have hdef : compileFragment "^.+$" = .ok defaultRegexp := rfl
    rw [hdef] at hf
    injection hf with hf
    exact hf.symm
  have hmatch : ∀ name : String,
      c.Filter.MatchString name = true ↔ name ≠ "" ∧ '\n' ∉ name.data := by
    intro name
    rw [hfilter]
    exact defaultRegexp_matches name
  refine ⟨hmatch, ?_, ?_⟩
  · rw [hfilter]
    rfl
  · intro F _ caseTable env capacity families hfetch hnames
    have hall : ∀ e ∈ families.entries, c.Filter.MatchString e.1 = true :=
      fun e he => (hmatch e.1).2 (hnames e he)
    exact ⟨hall, FetchTimeSeries_match_all caseTable env c capacity families hfetch hall⟩

/-- The example file: no descriptor has a filter, and the first Config collects
the series of the counter family. -/
theorem ReadConfig_default_filter_witness :
    exampleLib.ReadFile "config.json" = .ok "[...]"
    ∧ exampleLib.Unmarshal "[...]"
        = .ok [exampleExpr "90s", exampleExpr "0", exampleExpr "-5s"]
    ∧ exampleLib.Compile "^.+$" = compileFragment "^.+$"
    ∧ ReadConfig exampleLib "config.json" = .ok exampleConfigs
    ∧ FetchTimeSeries id (exampleEnv exampleCounterFamilies) (exampleRead "90s" 90000000000) 0
        = .ok [exampleCounterSeries]
    ∧ List.Forall₂ (fun (d : ConfigExpr) (c : Config) => d.Metric.Filter = "" →
        (∀ name : String, c.Filter.MatchString name = true ↔ name ≠ "" ∧ '\n' ∉ name.data)
        ∧ c.Filter.MatchString "" = false
        ∧ ∀ (F : Type) [Float64 F] (caseTable : Char → Char) (env : Env F) (capacity : Nat)
            (families : FamilyMap F),
            fetchMetricFamilies env c.Target = .ok families →
            (∀ e ∈ families.entries, e.1 ≠ "" ∧ '\n' ∉ e.1.data) →
            (∀ e ∈ families.entries, c.Filter.MatchString e.1 = true)
            ∧ FetchTimeSeries caseTable env c capacity
                = FetchTimeSeries caseTable env
                    { c with Filter := { MatchString := fun _ => true } } capacity)
      [exampleExpr "90s", exampleExpr "0", exampleExpr "-5s"] exampleConfigs :=
  ⟨rfl, rfl, rfl, rfl, rfl,
    ReadConfig_default_filter exampleLib "config.json" "[...]" _ rfl rfl rfl exampleConfigs rfl⟩

/-- C17 as stated fails on the empty name: the descriptors of the example file
give no filter, the Filter of each Config rejects the empty name and a name
with a newline (and accepts the name `up`), and on a fetched map that holds
the counter family under the empty name `FetchTimeSeries` excludes the family
and returns no series, where a filter that matches every text returns one. -/
theorem ReadConfig_default_filter_rejects_empty :
    [exampleExpr "90s", exampleExpr "0", exampleExpr "-5s"].map (fun d => d.Metric.Filter)
      = ["", "", ""]
    ∧ (ReadConfig exampleLib "config.json").map
        (fun out => out.map (fun c =>
          (c.Filter.MatchString "", c.Filter.MatchString "a\nb", c.Filter.MatchString "up",
            (FetchTimeSeries id (exampleEnv exampleUnnamedFamilies) c 0).map List.length,
            (FetchTimeSeries id (exampleEnv exampleUnnamedFamilies)
              { c with Filter := { MatchString := fun _ => true } } 0).map List.length)))
      = .ok [(false, false, true, .ok 0, .ok 1), (false, false, true, .ok 0, .ok 1),
             (false, false, true, .ok 0, .ok 1)] :=
  ⟨rfl, rfl⟩

/-- The dispatch step succeeds and offers one request per batch. -/
theorem dispatch_ok {F : Type} (client : MetricClient F) (cfg : Config)
    (ts : List (pb_monitoring.TimeSeries F)) (w : WorkerState F) :
    ∃ w1, eachChunk ts (workerLoop.send client cfg) w = .ok w1
      ∧ w1.requests.length = w.requests.length + (ts.length + 199) / 200 := by
  rw [send_eq client cfg, (eachChunk_spec ts).1]
  refine ⟨_, rfl, ?_⟩
  rw [foldl_requests client _ _ w, List.length_append, List.length_map,
    (eachChunk_spec ts).2.2.1]
  rfl

/-- C14 fails on the code: after the loop has received the cancellation, a
tick still starts a poll cycle, here the first one, which fetches the
counter family and offers a request with its series to the client. -/
theorem workerLoop_polls_after_done :
    (workerLoop id exampleClient exampleConfig
        [Event.Done, Event.Tick (exampleEnv exampleCounterFamilies)]).cycles = 1
    ∧ (workerLoop id exampleClient exampleConfig
        [Event.Done, Event.Tick (exampleEnv exampleCounterFamilies)]).worker.requests.length
        = 1 := by
  refine ⟨rfl, ?_⟩
  have hfetch : FetchTimeSeries id (exampleEnv exampleCounterFamilies) exampleConfig chunkSize
      = .ok (match toTimeSeries id 0 exampleConfig exampleCounter with
        | .ok ts => ts
        | .error _ => []) := rfl
  have hrun := workerLoop_tick id exampleClient exampleConfig (by decide) [Event.Done]
    (exampleEnv exampleCounterFamilies)
  rw [show [Event.Done, Event.Tick (exampleEnv exampleCounterFamilies)]
      = [Event.Done] ++ [Event.Tick (exampleEnv exampleCounterFamilies)] from rfl, hrun]
  simp only [workerLoop.cycle, hfetch]
  obtain ⟨w1, hw1, hlen⟩ := dispatch_ok exampleClient exampleConfig
    (match toTimeSeries id 0 exampleConfig exampleCounter with
      | .ok ts => ts
      | .error _ => [])
    (workerLoop id exampleClient exampleConfig [Event.Done]).worker
  rw [hw1]
  simp only [hlen]
  rfl

end Mscraper
